import Mathlib

/-!
# IoTivity: request-model builder, interface enumeration, payload, consumer query

A shallow embedding of

* `service/simulator/src/common/request_model_builder.cpp`
  (`RequestModelBuilder::build`, `createRequestModel`, `createResponseModel`,
  `createRepSchema`, `getRequestType`),
* `resource/csdk/connectivity/src/ip_adapter/tizen/caipnwmonitor.c`
  (`CAIPGetInterfaceInformation`),
* the property setters and getters declared in
  `resource/csdk/stack/include/ocpayload.h`,
* `service/notification/src/consumer/NSConsumerCommon.c`
  (`NSSetConsumerId`, `NSGetQuery`),

together with the properties proved about them.

Conventions.  A `std::string` is a Lean `String`.  A `std::map` is the list of
its entries in iteration order.  A null `shared_ptr` is `none`.  A C++
exception leaving a function is `Except.error`.  A C++ `double` is an exact
rational: the code only stores doubles and tests them for equality against the
integer sentinels, so no rounding takes place.
-/

namespace Iotivity

/-! ## Strings -/

/-- The position of the first occurrence of `needle` in `hay`, as
`std::string::find` computes it; `none` stands for `std::string::npos`. -/
def findFrom (needle : List Char) : List Char → Option Nat
  | [] => if needle.isPrefixOf [] then some 0 else none
  | c :: cs =>
    if needle.isPrefixOf (c :: cs) then some 0
    else (findFrom needle cs).map (fun i => i + 1)

/-- The call `hay.find(needle)` on two `std::string`s. -/
def stringFind (hay needle : String) : Option Nat :=
  findFrom needle.data hay.data

/-! ## `boost::lexical_cast<int>` -/

/-- The exceptions that can leave the model builder. -/
inductive Exn where
  | bad_lexical_cast
  deriving DecidableEq, Repr

def INT_MAX : Int := 2147483647

def INT_MIN : Int := -2147483648

/-- The value of a run of decimal digits read left to right with accumulator
`acc`; `none` when a character is not a decimal digit. -/
def digitsValue : Nat → List Char → Option Nat
  | acc, [] => some acc
  | acc, c :: cs =>
    if c.isDigit then digitsValue (acc * 10 + (c.toNat - 48)) cs else none

/-- A non-empty run of decimal digits. -/
def unsignedValue (cs : List Char) : Option Nat :=
  match cs with
  | [] => none
  | _ :: _ => digitsValue 0 cs

/-- The conversion `boost::lexical_cast<int>(s)` of a `std::string`: an optional
single sign, then one or more decimal digits and nothing else, the value being
representable as an `int`; any other token throws `bad_lexical_cast`. -/
def lexical_cast_int (s : String) : Except Exn Int :=
  match s.data with
  | [] => .error .bad_lexical_cast
  | c :: cs =>
    if c = '-' then
      match unsignedValue cs with
      | some n => if (n : Int) ≤ -INT_MIN then .ok (-(n : Int)) else .error .bad_lexical_cast
      | none => .error .bad_lexical_cast
    else
      match unsignedValue (if c = '+' then cs else c :: cs) with
      | some n => if (n : Int) ≤ INT_MAX then .ok (n : Int) else .error .bad_lexical_cast
      | none => .error .bad_lexical_cast

/-! ## The parsed RAML tree (the external parser's accessors) -/

/-- A C++ `double`, held exactly. -/
abbrev Double := Rat

/-- The RAML action kinds (`RAML::ActionType`). -/
inductive ActionType where
  | GET | PUT | POST | DELETE | HEAD | PATCH | OPTIONS | TRACE | NONE
  deriving DecidableEq, Repr

/-- The request kinds of the simulator (`RequestType`). -/
inductive RequestType where
  | RQ_TYPE_UNKNOWN | RQ_TYPE_GET | RQ_TYPE_PUT | RQ_TYPE_POST | RQ_TYPE_DELETE
  deriving DecidableEq, Repr

/-- Modelled from the spec: `RAML::Properties`, one declared schema property,
as the accessors `createRepSchema` calls on it: `getName`, `getValueType`
(tag 0 integer, 1 double, 2 boolean, 3 string), `getValue<T>` per kind,
`getAllowedValues<Kind>` per kind, and `getRange` (min, max, multiple-of, with
`INT_MIN` and `INT_MAX` for an unset bound). -/
structure Properties where
  name : String
  valueType : Int
  valueInt : Int
  valueDouble : Double
  valueBool : Bool
  valueString : String
  allowedValuesInt : List Int
  allowedValuesDouble : List Double
  allowedValuesBool : List Bool
  allowedValuesString : List String
  min : Double
  max : Double
  multipleOf : Int
  deriving DecidableEq

/-- Modelled from the spec: `RAML::JsonSchema`; `properties` is
`getProperties()`, the `std::map` of declared properties in iteration order. -/
structure JsonSchema where
  properties : List (String × Properties)
  deriving DecidableEq

/-- Modelled from the spec: `RAML::Schema`; `properties` is `getProperties()`,
a pointer that may be null. -/
structure Schema where
  properties : Option JsonSchema
  deriving DecidableEq

/-- Modelled from the spec: `RAML::RequestResponseBody`; `schema` is
`getSchema()`, a pointer that may be null. -/
structure RequestResponseBody where
  schema : Option Schema
  deriving DecidableEq

/-- Modelled from the spec: `RAML::Response`; `bodies` is the map from media
type to body that `getResponseBody` looks up. -/
structure Response where
  bodies : List (String × RequestResponseBody)
  deriving DecidableEq

/-- Modelled from the spec: `RAML::QueryParameter`; `enumeration` is
`getEnumeration()`. -/
structure QueryParameter where
  enumeration : List String
  deriving DecidableEq

/-- Modelled from the spec: `RAML::Action`: `getType()`, `getQueryParameters()`
(a `std::map` keyed by parameter name), the map of request bodies by media type
behind `getRequestBody`, and `getResponses()` (a `std::map` keyed by the status
token). -/
structure Action where
  type : ActionType
  queryParameters : List (String × QueryParameter)
  requestBodies : List (String × RequestResponseBody)
  responses : List (String × Response)
  deriving DecidableEq

/-- Modelled from the spec: `RAML::RamlResource`: `getResourceUri()` and
`getActions()` (a `std::map` keyed by action kind). -/
structure RamlResource where
  resourceUri : String
  actions : List (ActionType × Action)
  deriving DecidableEq

/-- Modelled from the spec: `RAML::Raml`; `resources` is `getResources()`, a
`std::map` keyed by resource name, in iteration order. -/
structure Raml where
  resources : List (String × RamlResource)
  deriving DecidableEq

/-- The lookup `m[key]` of a media type in a map of bodies: the stored body,
or a null pointer. -/
def getBody (key : String) : List (String × RequestResponseBody) → Option RequestResponseBody
  | [] => none
  | (k, b) :: rest => if k = key then some b else getBody key rest

def Action.getRequestBody (a : Action) (bodyType : String) : Option RequestResponseBody :=
  getBody bodyType a.requestBodies

def Response.getResponseBody (r : Response) (bodyType : String) : Option RequestResponseBody :=
  getBody bodyType r.bodies

/-! ## The simulator's models -/

/-- The value of an attribute of a resource model. -/
inductive AttributeValue where
  | int (v : Int)
  | double (v : Double)
  | bool (v : Bool)
  | string (v : String)
  deriving DecidableEq

/-- The constraint of an attribute (`SimulatorResourceModel::AttributeProperty`):
a set of allowed values of one kind, or a numeric range. -/
inductive AttributeProperty where
  | valueSetInt (vs : List Int)
  | valueSetDouble (vs : List Double)
  | valueSetBool (vs : List Bool)
  | valueSetString (vs : List String)
  | range (min max : Double)
  deriving DecidableEq

/-- Modelled from the spec: `SimulatorResourceModel`, the container of a body
schema: the values recorded under attribute names and the constraints attached
under attribute names, each in the order the builder recorded them. -/
structure SimulatorResourceModel where
  attributes : List (String × AttributeValue)
  attributeProperties : List (String × AttributeProperty)
  deriving DecidableEq

/-- Modelled from the spec: `SimulatorResourceModel::add`, which records a value
under a name. -/
def SimulatorResourceModel.add (m : SimulatorResourceModel) (name : String)
    (v : AttributeValue) : SimulatorResourceModel :=
  { m with attributes := m.attributes ++ [(name, v)] }

/-- Modelled from the spec: `SimulatorResourceModel::setAttributeProperty`, which
attaches a constraint under a name. -/
def SimulatorResourceModel.setAttributeProperty (m : SimulatorResourceModel) (name : String)
    (p : AttributeProperty) : SimulatorResourceModel :=
  { m with attributeProperties := m.attributeProperties ++ [(name, p)] }

/-- Modelled from the spec: `ResponseModel`: a status code and an optional body
schema. -/
structure ResponseModel where
  code : Int
  repSchema : Option SimulatorResourceModel
  deriving DecidableEq

/-- The assignment `m[k] = v` on a `std::map`, the map being the list of its
entries: the value of an existing key is replaced in place, a new key is added. -/
def mapSet {κ ν : Type} [DecidableEq κ] (k : κ) (v : ν) : List (κ × ν) → List (κ × ν)
  | [] => [(k, v)]
  | (k', v') :: rest => if k' = k then (k, v) :: rest else (k', v') :: mapSet k v rest

/-- The lookup of a key in a `std::map`. -/
def mapFind {κ ν : Type} [DecidableEq κ] (k : κ) : List (κ × ν) → Option ν
  | [] => none
  | (k', v') :: rest => if k' = k then some v' else mapFind k rest

/-- The keys of a `std::map`. -/
def mapKeys {κ ν : Type} (m : List (κ × ν)) : List κ := m.map Prod.fst

/-- Modelled from the spec: `RequestModel`: the operation kind, the map from
query-parameter name to its allowed values, the optional body schema and the
map from status code to response model. -/
structure RequestModel where
  type : RequestType
  queryParams : List (String × List String)
  repSchema : Option SimulatorResourceModel
  responseList : List (Int × ResponseModel)
  deriving DecidableEq

/-- Modelled from the spec: `RequestModel::addQueryParam`, which attaches one
allowed value under a parameter name, after those already attached. -/
def RequestModel.addQueryParam (m : RequestModel) (key value : String) : RequestModel :=
  { m with queryParams :=
      mapSet key ((mapFind key m.queryParams).getD [] ++ [value]) m.queryParams }

/-- Modelled from the spec: `RequestModel::addResponseModel`, which inserts a
response model into the status-code map. -/
def RequestModel.addResponseModel (m : RequestModel) (code : Int) (r : ResponseModel) :
    RequestModel :=
  { m with responseList := mapSet code r m.responseList }

def RequestModel.setRepSchema (m : RequestModel) (s : Option SimulatorResourceModel) :
    RequestModel :=
  { m with repSchema := s }

/-! ## `RequestModelBuilder` -/

/-- The function `RequestModelBuilder::getRequestType`. -/
def getRequestType (actionType : ActionType) : RequestType :=
  match actionType with
  | .PUT => .RQ_TYPE_PUT
  | .POST => .RQ_TYPE_POST
  | .DELETE => .RQ_TYPE_DELETE
  | _ => .RQ_TYPE_GET

/-- The test on the property name at the head of the loop of `createRepSchema`. -/
def isReservedName (propName : String) : Bool :=
  "rt" = propName || "resourceType" = propName || "if" = propName
    || "p" = propName || "n" = propName || "id" = propName

/-- The `switch (valueType)` of `createRepSchema`: the attribute is added with its
value, and the allowed values, when there are any, are attached. -/
def addTypedAttribute (repSchema : SimulatorResourceModel) (p : Properties) :
    SimulatorResourceModel :=
  if p.valueType = 0 then
    let s := repSchema.add p.name (.int p.valueInt)
    if p.allowedValuesInt.length > 0 then
      s.setAttributeProperty p.name (.valueSetInt p.allowedValuesInt)
    else s
  else if p.valueType = 1 then
    let s := repSchema.add p.name (.double p.valueDouble)
    if p.allowedValuesDouble.length > 0 then
      s.setAttributeProperty p.name (.valueSetDouble p.allowedValuesDouble)
    else s
  else if p.valueType = 2 then
    let s := repSchema.add p.name (.bool p.valueBool)
    if p.allowedValuesBool.length > 0 then
      s.setAttributeProperty p.name (.valueSetBool p.allowedValuesBool)
    else s
  else if p.valueType = 3 then
    let s := repSchema.add p.name (.string p.valueString)
    if p.allowedValuesString.length > 0 then
      s.setAttributeProperty p.name (.valueSetString p.allowedValuesString)
    else s
  else repSchema

/-- One round of the loop of `createRepSchema` over the declared properties. -/
def repSchemaStep (repSchema : SimulatorResourceModel) (p : Properties) :
    SimulatorResourceModel :=
  if isReservedName p.name then repSchema
  else
    let s := addTypedAttribute repSchema p
    if p.min ≠ (INT_MIN : Double) ∧ p.max ≠ (INT_MAX : Double) then
      s.setAttributeProperty p.name (.range p.min p.max)
    else s

/-- The loop of `createRepSchema` over the declared properties. -/
def repSchemaLoop : SimulatorResourceModel → List (String × Properties) → SimulatorResourceModel
  | repSchema, [] => repSchema
  | repSchema, (_, p) :: rest => repSchemaLoop (repSchemaStep repSchema p) rest

/-- The function `RequestModelBuilder::createRepSchema`. -/
def createRepSchema (rep : Option RequestResponseBody) : Option SimulatorResourceModel :=
  match rep with
  | none => none
  | some body =>
    match body.schema with
    | none => none
    | some schema =>
      match schema.properties with
      | none => none
      | some properties =>
        if properties.properties.length = 0 then none
        else some (repSchemaLoop ⟨[], []⟩ properties.properties)

/-- The function `RequestModelBuilder::createResponseModel`. -/
def createResponseModel (code : Int) (response : Response) : Option ResponseModel :=
  some { code := code, repSchema := createRepSchema (response.getResponseBody "application/json") }

/-- The inner loop of `createRequestModel` over the enumeration of one query
parameter. -/
def addEnumeration (requestModel : RequestModel) (name : String) :
    List String → RequestModel
  | [] => requestModel
  | value :: rest => addEnumeration (requestModel.addQueryParam name value) name rest

/-- The loop of `createRequestModel` over the query parameters. -/
def addQueryParameters (requestModel : RequestModel) :
    List (String × QueryParameter) → RequestModel
  | [] => requestModel
  | (name, qp) :: rest =>
    addQueryParameters (addEnumeration requestModel name qp.enumeration) rest

/-- The loop of `createRequestModel` over the responses: the status token is
converted, which may throw, and the response model is added. -/
def addResponses (requestModel : RequestModel) :
    List (String × Response) → Except Exn RequestModel
  | [] => .ok requestModel
  | (codeStr, response) :: rest =>
    match lexical_cast_int codeStr with
    | .error e => .error e
    | .ok code =>
      match createResponseModel code response with
      | some responseModel => addResponses (requestModel.addResponseModel code responseModel) rest
      | none => addResponses requestModel rest

/-- The action kinds that pass the test at the head of `createRequestModel`. -/
def ActionType.supported (actionType : ActionType) : Prop :=
  actionType = .GET ∨ actionType = .PUT ∨ actionType = .POST ∨ actionType = .DELETE

instance (actionType : ActionType) : Decidable actionType.supported := by
  unfold ActionType.supported; infer_instance

/-- The function `RequestModelBuilder::createRequestModel`; `none` is the null
pointer returned for an action of unknown type. -/
def createRequestModel (action : Action) : Except Exn (Option RequestModel) :=
  if action.type ≠ .GET ∧ action.type ≠ .PUT ∧ action.type ≠ .POST ∧ action.type ≠ .DELETE then
    .ok none
  else
    let requestModel : RequestModel := ⟨getRequestType action.type, [], none, []⟩
    let requestModel := addQueryParameters requestModel action.queryParameters
    let requestModel :=
      requestModel.setRepSchema (createRepSchema (action.getRequestBody "application/json"))
    match addResponses requestModel action.responses with
    | .error e => .error e
    | .ok requestModel => .ok (some requestModel)

/-- The inner loop of `build` over the actions of one resource. -/
def buildActions (modelList : List (RequestType × RequestModel)) :
    List (ActionType × Action) → Except Exn (List (RequestType × RequestModel))
  | [] => .ok modelList
  | (_, action) :: rest =>
    match createRequestModel action with
    | .error e => .error e
    | .ok none => buildActions modelList rest
    | .ok (some requestModel) =>
      buildActions (mapSet requestModel.type requestModel modelList) rest

/-- The outer loop of `build` over the resources. -/
def buildResources (uri : String) (modelList : List (RequestType × RequestModel)) :
    List (String × RamlResource) → Except Exn (List (RequestType × RequestModel))
  | [] => .ok modelList
  | (_, resource) :: rest =>
    if stringFind uri resource.resourceUri = none then buildResources uri modelList rest
    else
      match buildActions modelList resource.actions with
      | .error e => .error e
      | .ok modelList => buildResources uri modelList rest

/-- The function `RequestModelBuilder::build`; `m_raml` is the schema document the
builder was constructed with. -/
def build (m_raml : Option Raml) (uri : String) :
    Except Exn (List (RequestType × RequestModel)) :=
  match m_raml with
  | none => .ok []
  | some raml => buildResources uri [] raml.resources

/-! ### Vocabulary for the statements about the builder -/

/-- A status key that `boost::lexical_cast<int>` converts. -/
def isIntegerToken (s : String) : Bool :=
  match lexical_cast_int s with
  | .ok _ => true
  | .error _ => false

/-- Every response of the action is keyed by an integer token. -/
def Action.keysValid (a : Action) : Prop :=
  ∀ e ∈ a.responses, isIntegerToken e.1 = true

instance (a : Action) : Decidable a.keysValid := by
  unfold Action.keysValid; infer_instance

/-- Every response status key of the schema document is an integer token. -/
def Raml.keysValid (raml : Raml) : Prop :=
  ∀ r ∈ raml.resources, ∀ a ∈ r.2.actions, a.2.keysValid

instance (raml : Raml) : Decidable raml.keysValid := by
  unfold Raml.keysValid; infer_instance

/-- The declared URI of the resource occurs in `uri` as a substring. -/
def RamlResource.matches (r : RamlResource) (uri : String) : Prop :=
  r.resourceUri.data <:+: uri.data

instance (r : RamlResource) (uri : String) : Decidable (r.matches uri) := by
  unfold RamlResource.matches; infer_instance

/-- Every stored model is stored under its own operation kind, and no kind is
stored twice. -/
def WellKeyed (ml : List (RequestType × RequestModel)) : Prop :=
  (∀ t m, mapFind t ml = some m → m.type = t) ∧ (mapKeys ml).Nodup

/-- The properties a body declares: those the loop of `createRepSchema` visits,
none when the body, its schema or its property set is absent. -/
def declaredProperties (rep : Option RequestResponseBody) : List (String × Properties) :=
  match rep with
  | none => []
  | some body =>
    match body.schema with
    | none => []
    | some schema =>
      match schema.properties with
      | none => []
      | some properties => properties.properties

/-- The value `createRepSchema` reads from a property: the representative value
at the kind its type tag selects (0 integer, 1 double, 2 boolean, 3 string),
none for any other tag. -/
def Properties.typedValue (p : Properties) : Option AttributeValue :=
  if p.valueType = 0 then some (.int p.valueInt)
  else if p.valueType = 1 then some (.double p.valueDouble)
  else if p.valueType = 2 then some (.bool p.valueBool)
  else if p.valueType = 3 then some (.string p.valueString)
  else none

/-- The enumeration constraint of a property: the allowed values of the kind
its type tag selects, when that list is not empty. -/
def Properties.enumeration (p : Properties) : Option AttributeProperty :=
  if p.valueType = 0 then
    if p.allowedValuesInt.length > 0 then some (.valueSetInt p.allowedValuesInt) else none
  else if p.valueType = 1 then
    if p.allowedValuesDouble.length > 0 then some (.valueSetDouble p.allowedValuesDouble) else none
  else if p.valueType = 2 then
    if p.allowedValuesBool.length > 0 then some (.valueSetBool p.allowedValuesBool) else none
  else if p.valueType = 3 then
    if p.allowedValuesString.length > 0 then some (.valueSetString p.allowedValuesString) else none
  else none

/-- The reserved property names. -/
def reservedNames : List String := ["rt", "resourceType", "if", "p", "n", "id"]

/-! ## `CAIPGetInterfaceInformation` (Tizen network monitor) -/

/-- The flag `IFF_LOOPBACK` of `<net/if.h>`. -/
def IFF_LOOPBACK : Nat := 8

/-- The address family `AF_INET` of `<sys/socket.h>`. -/
def AF_INET : Nat := 2

/-- The address family `AF_INET6` of `<sys/socket.h>`. -/
def AF_INET6 : Nat := 10

/-- The size of the name buffer of a `CAInterface_t`. -/
def INTERFACE_NAME_MAX : Nat := 16

/-- The address `ifa_addr` of a node points to, as the function reads it: the
family, and the word read through
`((struct sockaddr_in *) ifa_addr)->sin_addr.s_addr`. -/
structure sockaddr where
  sa_family : Nat
  s_addr : Nat
  deriving DecidableEq, Repr

/-- One node of the list `getifaddrs` returns: the name, the flags, and the
address pointer `ifa_addr`, which is null (`none`) for an interface without an
address. -/
structure ifaddrs where
  ifa_name : String
  ifa_flags : Nat
  ifa_addr : Option sockaddr
  deriving DecidableEq, Repr

/-- The way a call can end without returning: the read through a null pointer. -/
inductive Crash where
  | nullDereference
  deriving DecidableEq, Repr

/-- The record `CAInterface_t` of one reported interface. -/
structure CAInterface_t where
  name : String
  index : Nat
  family : Nat
  ipv4addr : Nat
  flags : Nat
  deriving DecidableEq, Repr

/-- What the operating system and the allocator answer during one call:
whether `u_arraylist_create` succeeds, the list `getifaddrs` yields (`none`
when it returns -1), the index `if_nametoindex` gives a name, and whether
`OICCalloc` and `u_arraylist_add` succeed when the list holds a given number of
items. -/
structure IfEnv where
  u_arraylist_create_ok : Bool
  getifaddrs : Option (List ifaddrs)
  if_nametoindex : String → Nat
  OICCalloc_ok : Nat → Bool
  u_arraylist_add_ok : Nat → Bool

/-- Modelled from the spec: `OICStrcpy(dest, destSize, source)`, the bounded
string copy: `dest` receives at most `destSize - 1` characters of `source`. -/
def OICStrcpy (destSize : Nat) (source : String) : String :=
  ⟨source.data.take (destSize - 1)⟩

/-- The scan `for (int i = length-1; i >= 0; i--)` for an item with the given
index and family; the argument counts the positions still to visit. -/
def scanAlready (iflist : List CAInterface_t) (ifindex family : Nat) : Nat → Bool
  | 0 => false
  | i + 1 =>
    match iflist.get? i with
    | some ifitem =>
      if ifitem.index = ifindex ∧ ifitem.family = family then true
      else scanAlready iflist ifindex family i
    | none => scanAlready iflist ifindex family i

/-- The item filled in for one node of the address list, `addr` being what its
`ifa_addr` points to. -/
def mkInterface (env : IfEnv) (ifa : ifaddrs) (addr : sockaddr) : CAInterface_t :=
  { name := OICStrcpy INTERFACE_NAME_MAX ifa.ifa_name
    index := env.if_nametoindex ifa.ifa_name
    family := addr.sa_family
    ipv4addr := addr.s_addr
    flags := ifa.ifa_flags }

/-- The loop of `CAIPGetInterfaceInformation` over the address list.  The read
`ifa->ifa_addr->sa_family` at the head of each round is made without a null
test: on a node without an address the call crashes.  The result `none` is the
`exit:` path, which returns `NULL`. -/
def interfaceLoop (env : IfEnv) :
    List CAInterface_t → List ifaddrs → Except Crash (Option (List CAInterface_t))
  | iflist, [] => .ok (some iflist)
  | iflist, ifa :: rest =>
    match ifa.ifa_addr with
    | none => .error .nullDereference
    | some addr =>
      let family := addr.sa_family
      if ifa.ifa_flags &&& IFF_LOOPBACK ≠ 0 ∨ (AF_INET ≠ family ∧ AF_INET6 ≠ family) then
        interfaceLoop env iflist rest
      else
        let ifindex := env.if_nametoindex ifa.ifa_name
        let length := iflist.length
        if scanAlready iflist ifindex family length then interfaceLoop env iflist rest
        else if env.OICCalloc_ok length = false then .ok none
        else if env.u_arraylist_add_ok length = false then .ok none
        else interfaceLoop env (iflist ++ [mkInterface env ifa addr]) rest

/-- The function `CAIPGetInterfaceInformation`; the result `none` is `NULL`. -/
def CAIPGetInterfaceInformation (env : IfEnv) (_desiredIndex : Int) :
    Except Crash (Option (List CAInterface_t)) :=
  if env.u_arraylist_create_ok = false then .ok none
  else
    match env.getifaddrs with
    | none => .ok none
    | some ifp => interfaceLoop env [] ifp

/-- A node the loop does not skip: it has an address, is not a loopback
interface, and is of family IPv4 or IPv6. -/
def ifaddrs.reportable (ifa : ifaddrs) : Prop :=
  match ifa.ifa_addr with
  | none => False
  | some addr =>
    ifa.ifa_flags &&& IFF_LOOPBACK = 0 ∧ (addr.sa_family = AF_INET ∨ addr.sa_family = AF_INET6)

instance (ifa : ifaddrs) : Decidable ifa.reportable := by
  unfold ifaddrs.reportable
  cases ifa.ifa_addr <;> infer_instance

/-- The (interface index, family) pair of a reported interface. -/
def CAInterface_t.key (ifitem : CAInterface_t) : Nat × Nat :=
  (ifitem.index, ifitem.family)

/-- The (interface index, family) pair of a node of the address list that has
an address. -/
def IfEnv.keyOf (env : IfEnv) (ifa : ifaddrs) : Option (Nat × Nat) :=
  ifa.ifa_addr.map (fun addr => (env.if_nametoindex ifa.ifa_name, addr.sa_family))

/-- The item the loop fills in for a node of the address list that has an
address. -/
def IfEnv.interfaceOf (env : IfEnv) (ifa : ifaddrs) : Option CAInterface_t :=
  ifa.ifa_addr.map (mkInterface env ifa)

/-! ## The representation payload (`ocpayload.h`) -/

mutual
/-- Modelled from the spec: the value of one property of a representation
payload: an integer, a double, a boolean, a string or a nested object. -/
inductive OCRepPayloadValue where
  | int (i : Int)
  | double (d : Double)
  | bool (b : Bool)
  | str (s : String)
  | object (obj : OCRepPayload)

/-- Modelled from the spec: the representation payload `OCRepPayload`: optional
URI, resource types, interfaces, the map from property name to value, the names
marked null, and the optional next sibling. -/
inductive OCRepPayload where
  | mk (uri : Option String) (types : List String) (interfaces : List String)
      (values : List (String × OCRepPayloadValue)) (nulls : List String)
      (next : Option OCRepPayload)
end

/-- The failures of the payload operations the spec names. -/
inductive OCPayloadError where
  | AllocationFailure
  | NotFound
  | TypeMismatch
  deriving DecidableEq, Repr

def OCRepPayload.values : OCRepPayload → List (String × OCRepPayloadValue)
  | .mk _ _ _ values _ _ => values

def OCRepPayload.nulls : OCRepPayload → List String
  | .mk _ _ _ _ nulls _ => nulls

/-- Modelled from the spec: `OCRepPayloadCreate`: no URI, empty sets and maps. -/
def OCRepPayloadCreate : OCRepPayload := .mk none [] [] [] [] none

/-- Modelled from the spec: the write shared by the `OCRepPayloadSetProp<Kind>`
functions: the value is inserted under the name or overwrites the one stored
there, and the null marker of the name is cleared; when an allocation fails the
operation fails and the payload is untouched. -/
def OCRepPayloadSetValue (allocOk : Bool) (payload : OCRepPayload) (name : String)
    (value : OCRepPayloadValue) : Except OCPayloadError OCRepPayload :=
  if allocOk = false then .error .AllocationFailure
  else
    match payload with
    | .mk uri types interfaces values nulls next =>
      .ok (.mk uri types interfaces (mapSet name value values)
        (nulls.filter (fun n => n ≠ name)) next)

/-- Modelled from the spec: `OCRepPayloadSetNull`: the name is marked null and
removed from the value map. -/
def OCRepPayloadSetNull (payload : OCRepPayload) (name : String) : OCRepPayload :=
  match payload with
  | .mk uri types interfaces values nulls next =>
    .mk uri types interfaces (values.filter (fun e => e.1 ≠ name))
      (if name ∈ nulls then nulls else nulls ++ [name]) next

/-- Modelled from the spec: `OCRepPayloadIsNull`. -/
def OCRepPayloadIsNull (payload : OCRepPayload) (name : String) : Bool :=
  decide (name ∈ payload.nulls)

/-- Modelled from the spec: `OCRepPayloadSetPropInt`. -/
def OCRepPayloadSetPropInt (allocOk : Bool) (payload : OCRepPayload) (name : String)
    (value : Int) : Except OCPayloadError OCRepPayload :=
  OCRepPayloadSetValue allocOk payload name (.int value)

/-- Modelled from the spec: `OCRepPayloadSetPropDouble`. -/
def OCRepPayloadSetPropDouble (allocOk : Bool) (payload : OCRepPayload) (name : String)
    (value : Double) : Except OCPayloadError OCRepPayload :=
  OCRepPayloadSetValue allocOk payload name (.double value)

/-- Modelled from the spec: `OCRepPayloadSetPropBool`. -/
def OCRepPayloadSetPropBool (allocOk : Bool) (payload : OCRepPayload) (name : String)
    (value : Bool) : Except OCPayloadError OCRepPayload :=
  OCRepPayloadSetValue allocOk payload name (.bool value)

/-- Modelled from the spec: `OCRepPayloadSetPropString`, which stores a copy of
the string. -/
def OCRepPayloadSetPropString (allocOk : Bool) (payload : OCRepPayload) (name : String)
    (value : String) : Except OCPayloadError OCRepPayload :=
  OCRepPayloadSetValue allocOk payload name (.str value)

/-- Modelled from the spec: `OCRepPayloadSetPropStringAsOwner`, which stores the
string handed over. -/
def OCRepPayloadSetPropStringAsOwner (allocOk : Bool) (payload : OCRepPayload) (name : String)
    (value : String) : Except OCPayloadError OCRepPayload :=
  OCRepPayloadSetValue allocOk payload name (.str value)

/-- Modelled from the spec: `OCRepPayloadSetPropObject`, which stores a deep
copy of the payload. -/
def OCRepPayloadSetPropObject (allocOk : Bool) (payload : OCRepPayload) (name : String)
    (value : OCRepPayload) : Except OCPayloadError OCRepPayload :=
  OCRepPayloadSetValue allocOk payload name (.object value)

/-- Modelled from the spec: `OCRepPayloadSetPropObjectAsOwner`, which stores the
payload handed over. -/
def OCRepPayloadSetPropObjectAsOwner (allocOk : Bool) (payload : OCRepPayload) (name : String)
    (value : OCRepPayload) : Except OCPayloadError OCRepPayload :=
  OCRepPayloadSetValue allocOk payload name (.object value)

/-- Modelled from the spec: `OCRepPayloadGetPropInt`: `NotFound` when the name is
absent, `TypeMismatch` when the stored kind differs, else the stored value. -/
def OCRepPayloadGetPropInt (payload : OCRepPayload) (name : String) :
    Except OCPayloadError Int :=
  match mapFind name payload.values with
  | none => .error .NotFound
  | some (.int i) => .ok i
  | some _ => .error .TypeMismatch

/-- Modelled from the spec: `OCRepPayloadGetPropDouble`. -/
def OCRepPayloadGetPropDouble (payload : OCRepPayload) (name : String) :
    Except OCPayloadError Double :=
  match mapFind name payload.values with
  | none => .error .NotFound
  | some (.double d) => .ok d
  | some _ => .error .TypeMismatch

/-- Modelled from the spec: `OCRepPayloadGetPropBool`. -/
def OCRepPayloadGetPropBool (payload : OCRepPayload) (name : String) :
    Except OCPayloadError Bool :=
  match mapFind name payload.values with
  | none => .error .NotFound
  | some (.bool b) => .ok b
  | some _ => .error .TypeMismatch

/-- Modelled from the spec: `OCRepPayloadGetPropString`. -/
def OCRepPayloadGetPropString (payload : OCRepPayload) (name : String) :
    Except OCPayloadError String :=
  match mapFind name payload.values with
  | none => .error .NotFound
  | some (.str s) => .ok s
  | some _ => .error .TypeMismatch

/-- Modelled from the spec: `OCRepPayloadGetPropObject`. -/
def OCRepPayloadGetPropObject (payload : OCRepPayload) (name : String) :
    Except OCPayloadError OCRepPayload :=
  match mapFind name payload.values with
  | none => .error .NotFound
  | some (.object obj) => .ok obj
  | some _ => .error .TypeMismatch

/-! ## The notification consumer (`NSConsumerCommon.c`) -/

/-- The macro `NS_QUERY_CONSUMER_ID`. -/
def NS_QUERY_CONSUMER_ID : String := "consumerid"

/-- The character that terminates a C string. -/
def NUL : Char := Char.ofNat 0

/-- A block of allocated memory: each cell holds a character or is
indeterminate. -/
abbrev Block := List (Option Char)

/-- The faults of the memory model: a write outside the block, and a read of a
string that is not terminated inside the initialised part of the block. -/
inductive MemFault where
  | outOfBounds
  | unterminated
  deriving DecidableEq, Repr

/-- The C string a block holds at its start: the characters before the first
`NUL`; none when an indeterminate cell or the end of the block comes first. -/
def readCString : Block → Option (List Char)
  | [] => none
  | none :: _ => none
  | some c :: rest => if c = NUL then some [] else (readCString rest).map (fun cs => c :: cs)

/-- The C string of a block, as a string. -/
def Block.cString (b : Block) : Option String :=
  (readCString b).map String.mk

/-- The write of the characters `cs` and a terminating `NUL` into the block,
starting at cell `index`. -/
def writeCString (buf : Block) (index : Nat) (cs : List Char) : Except MemFault Block :=
  if index + cs.length + 1 ≤ buf.length then
    .ok (buf.take index ++ (cs.map some ++ [some NUL]) ++ buf.drop (index + cs.length + 1))
  else .error .outOfBounds

/-- Modelled from the spec: `OICStrcpy(dest, destSize, source)` with `dest`
pointing at cell `index` of a block: at most `destSize - 1` characters of
`source` and a terminating `NUL` are written, nothing when `destSize` is 0. -/
def OICStrcpyAt (buf : Block) (index destSize : Nat) (source : String) :
    Except MemFault Block :=
  if destSize = 0 then .ok buf
  else writeCString buf index (OICStrcpy destSize source).data

/-- Modelled from the spec: `OICMalloc(size)`: a fresh block of `size`
indeterminate cells, or the null pointer when the allocation fails. -/
def OICMalloc (ok : Bool) (size : Nat) : Option Block :=
  if ok = false then none else some (List.replicate size none)

/-- Modelled from the spec: `OICStrdup(str)`: a fresh copy of the string, or the
null pointer when `str` is null or the allocation fails. -/
def OICStrdup (ok : Bool) (str : Option String) : Option String :=
  match str with
  | none => none
  | some s => if ok = false then none else some s

/-- The function `NSSetConsumerId`, on the string the static `g_consumerId`
points to (`none` for the null pointer); `NS_DEVICE_ID_LENGTH` is the constant
of `NSConstants.h`.  The result is the new content of `g_consumerId`. -/
def NSSetConsumerId (NS_DEVICE_ID_LENGTH : Nat) (mallocOk : Bool)
    (g_consumerId : Option String) (cId : Option String) : Except MemFault (Option String) :=
  match cId with
  | none => .ok g_consumerId
  | some cId =>
    match OICMalloc mallocOk NS_DEVICE_ID_LENGTH with
    | none => .ok none
    | some consumerId =>
      match OICStrcpyAt consumerId 0 NS_DEVICE_ID_LENGTH cId with
      | .error e => .error e
      | .ok consumerId =>
        match consumerId.cString with
        | none => .error .unterminated
        | some stored => .ok (some stored)

/-- The function `NSGetQuery`; the result is the block `retQuery` points to,
`none` for the null pointer. -/
def NSGetQuery (NS_DEVICE_ID_LENGTH : Nat) (strdupOk mallocOk : Bool)
    (g_consumerId : Option String) (uri : Option String) : Except MemFault (Option Block) :=
  match uri with
  | none => .ok none
  | some uri =>
    match OICStrdup strdupOk g_consumerId with
    | none => .ok none
    | some consumerId =>
      let uriLen := uri.length + 1
      let qKeyLen := NS_QUERY_CONSUMER_ID.length + 1
      let queryLen := NS_DEVICE_ID_LENGTH + uriLen + qKeyLen + 2
      match OICMalloc mallocOk queryLen with
      | none => .ok none
      | some retQuery =>
        let index := 0
        match OICStrcpyAt retQuery index uriLen uri with
        | .error e => .error e
        | .ok retQuery =>
          let index := index + (uriLen - 1)
          match OICStrcpyAt retQuery index 2 "?" with
          | .error e => .error e
          | .ok retQuery =>
            let index := index + 1
            match OICStrcpyAt retQuery index qKeyLen NS_QUERY_CONSUMER_ID with
            | .error e => .error e
            | .ok retQuery =>
              let index := index + (qKeyLen - 1)
              match OICStrcpyAt retQuery index 2 "=" with
              | .error e => .error e
              | .ok retQuery =>
                let index := index + 1
                match OICStrcpyAt retQuery index NS_DEVICE_ID_LENGTH consumerId with
                | .error e => .error e
                | .ok retQuery => .ok (some retQuery)

/-! ## Example documents -/

/-- A body of media type `application/json` carrying a schema with the given
declared properties. -/
def jsonBody (properties : List (String × Properties)) : RequestResponseBody :=
  ⟨some ⟨some ⟨properties⟩⟩⟩

/-- The integer property `brightness` with range [0, 100] and no enumeration. -/
def brightnessProperty (value multipleOf : Int) : Properties :=
  { name := "brightness", valueType := 0, valueInt := value, valueDouble := 0,
    valueBool := false, valueString := "", allowedValuesInt := [], allowedValuesDouble := [],
    allowedValuesBool := [], allowedValuesString := [], min := 0, max := 100,
    multipleOf := multipleOf }

/-- The GET action of the light resource: query parameter `power` enumerating
`on` and `off`, and one response `200` with a JSON body declaring `brightness`. -/
def lightAction (value multipleOf : Int) (requestBodies : List (String × RequestResponseBody)) :
    Action :=
  { type := .GET
    queryParameters := [("power", ⟨["on", "off"]⟩)]
    requestBodies := requestBodies
    responses :=
      [("200", ⟨[("application/json", jsonBody [("brightness", brightnessProperty value multipleOf)])]⟩)] }

/-- The schema document with the single resource of declared URI `/light`. -/
def lightRaml (key : String) (value multipleOf : Int)
    (requestBodies : List (String × RequestResponseBody)) : Raml :=
  ⟨[(key, ⟨"/light", [(.GET, lightAction value multipleOf requestBodies)]⟩)]⟩

/-- A GET action with a response keyed `200` and a response keyed `twohundred`. -/
def twohundredAction : Action :=
  { type := .GET, queryParameters := [], requestBodies := []
    responses := [("200", ⟨[]⟩), ("twohundred", ⟨[]⟩)] }

/-- A document whose resource `/light` declares `twohundredAction`. -/
def twohundredRaml : Raml :=
  ⟨[("/light", ⟨"/light", [(.GET, twohundredAction)]⟩)]⟩

/-- A PATCH action. -/
def patchAction : Action :=
  { type := .PATCH, queryParameters := [], requestBodies := [], responses := [] }

/-- A PUT action with a response keyed `204`. -/
def putAction : Action :=
  { type := .PUT, queryParameters := [], requestBodies := [], responses := [("204", ⟨[]⟩)] }

/-- A GET action with the query parameter `level` enumerating `low` and `high`,
and a parameter `any` without enumeration. -/
def levelAction : Action :=
  { type := .GET, queryParameters := [("any", ⟨[]⟩), ("level", ⟨["low", "high"]⟩)],
    requestBodies := [], responses := [] }

/-- Two resources whose declared URIs both occur in `/light/1` and which both
declare a GET action. -/
def twoLightsRaml : Raml :=
  ⟨[("a", ⟨"/light", [(.GET, lightAction 0 1 [])]⟩),
    ("b", ⟨"/li", [(.GET, levelAction)]⟩)]⟩

/-- A string property `label` (type tag 3) with range [0, 10]. -/
def labelProperty : Properties :=
  { name := "label", valueType := 3, valueInt := 0, valueDouble := 0, valueBool := false,
    valueString := "", allowedValuesInt := [], allowedValuesDouble := [],
    allowedValuesBool := [], allowedValuesString := [], min := 0, max := 10, multipleOf := 1 }

/-- An integer property named `rt` with an enumeration and a range. -/
def rtProperty : Properties :=
  { name := "rt", valueType := 0, valueInt := 1, valueDouble := 0, valueBool := false,
    valueString := "", allowedValuesInt := [1, 2], allowedValuesDouble := [],
    allowedValuesBool := [], allowedValuesString := [], min := 0, max := 10, multipleOf := 1 }

/-- An integer property `level` with the enumeration 1, 2, 3 and the range
[1, 3]. -/
def levelProperty : Properties :=
  { name := "level", valueType := 0, valueInt := 2, valueDouble := 0, valueBool := false,
    valueString := "", allowedValuesInt := [1, 2, 3], allowedValuesDouble := [],
    allowedValuesBool := [], allowedValuesString := [], min := 1, max := 3, multipleOf := 1 }

/-- A string property `mode` with the enumeration `eco`, `boost` and no range. -/
def modeProperty : Properties :=
  { name := "mode", valueType := 3, valueInt := 0, valueDouble := 0, valueBool := false,
    valueString := "eco", allowedValuesInt := [], allowedValuesDouble := [],
    allowedValuesBool := [], allowedValuesString := ["eco", "boost"],
    min := INT_MIN, max := INT_MAX, multipleOf := 1 }

/-- A body declaring `level`, `mode` and the reserved `rt`. -/
def levelModeBody : RequestResponseBody :=
  jsonBody [("level", levelProperty), ("mode", modeProperty), ("rt", rtProperty)]

/-- An address list: the loopback interface, `eth0` with a packet-family
address, an IPv4 address, an IPv6 address and a second IPv4 address, and `wlan0`
with an IPv4 address. -/
def sampleIfaddrs : List ifaddrs :=
  [⟨"lo", 73, some ⟨2, 16777343⟩⟩, ⟨"eth0", 4163, some ⟨17, 0⟩⟩,
   ⟨"eth0", 4163, some ⟨2, 167772161⟩⟩, ⟨"eth0", 4163, some ⟨10, 0⟩⟩,
   ⟨"eth0", 4163, some ⟨2, 167772162⟩⟩, ⟨"wlan0", 4163, some ⟨2, 3232235777⟩⟩]

/-- An environment in which every call succeeds, `getifaddrs` yields
`sampleIfaddrs`, and an interface's index is the length of its name. -/
def sampleEnv : IfEnv :=
  { u_arraylist_create_ok := true
    getifaddrs := some sampleIfaddrs
    if_nametoindex := fun name => name.length
    OICCalloc_ok := fun _ => true
    u_arraylist_add_ok := fun _ => true }

/-- The address list `sampleIfaddrs` followed by the node of a tunnel interface
`tun0` that has no address: its `ifa_addr` is null. -/
def tunnelIfaddrs : List ifaddrs :=
  sampleIfaddrs ++ [⟨"tun0", 4305, none⟩]

/-- The environment `sampleEnv` with `getifaddrs` yielding `tunnelIfaddrs`. -/
def tunnelEnv : IfEnv :=
  { sampleEnv with getifaddrs := some tunnelIfaddrs }

/-! ## Lemmas on strings and maps -/

theorem findFrom_ne_none_iff (needle hay : List Char) :
    findFrom needle hay ≠ none ↔ needle <:+: hay := by
  induction hay with
  | nil =>
    cases needle with
    | nil => simp [findFrom]
    | cons c cs => simp [findFrom, List.isPrefixOf]
  | cons h t ih =>
    unfold findFrom
    by_cases hp : needle.isPrefixOf (h :: t) = true
    · simp only [hp, if_true]
      have : needle <+: h :: t := List.isPrefixOf_iff_prefix.mp hp
      simp [this.isInfix]
    · simp only [hp]
      have hnp : ¬ needle <+: h :: t := fun h' => hp (List.isPrefixOf_iff_prefix.mpr h')
      rw [List.infix_cons_iff]
      constructor
      · intro hne
        right
        apply ih.mp
        intro hn
        simp [hn] at hne
      · rintro (h1 | h2)
        · exact absurd h1 hnp
        · have := ih.mpr h2
          cases hf : findFrom needle t with
          | none => exact absurd hf this
          | some i => simp

theorem stringFind_eq_none_iff (uri : String) (r : RamlResource) :
    stringFind uri r.resourceUri = none ↔ ¬ r.matches uri := by
  unfold stringFind RamlResource.matches
  rw [← findFrom_ne_none_iff]
  simp

section maps
variable {κ ν : Type} [DecidableEq κ]

theorem mapFind_mapSet_self (k : κ) (v : ν) (l : List (κ × ν)) :
    mapFind k (mapSet k v l) = some v := by
  induction l with
  | nil => simp [mapSet, mapFind]
  | cons e rest ih =>
    obtain ⟨k', v'⟩ := e
    by_cases h : k' = k
    · simp [mapSet, mapFind, h]
    · simp [mapSet, mapFind, h, ih]

theorem mapFind_mapSet_ne (k k' : κ) (v : ν) (l : List (κ × ν)) (h : k' ≠ k) :
    mapFind k' (mapSet k v l) = mapFind k' l := by
  induction l with
  | nil => simp [mapSet, mapFind, h.symm]
  | cons e rest ih =>
    obtain ⟨k₁, v₁⟩ := e
    by_cases h1 : k₁ = k
    · subst h1
      simp [mapSet, mapFind, h.symm]
    · by_cases h2 : k₁ = k'
      · subst h2
        simp [mapSet, mapFind, h1]
      · simp [mapSet, mapFind, h1, h2, ih]

theorem mem_mapKeys_mapSet (k t : κ) (v : ν) (l : List (κ × ν)) :
    t ∈ mapKeys (mapSet k v l) ↔ t = k ∨ t ∈ mapKeys l := by
  induction l with
  | nil => simp [mapSet, mapKeys]
  | cons e rest ih =>
    obtain ⟨k₁, v₁⟩ := e
    by_cases h1 : k₁ = k
    · subst h1
      simp [mapSet, mapKeys]
    · simp only [mapSet, h1, if_false]
      simp only [mapKeys, List.map_cons, List.mem_cons] at ih ⊢
      rw [ih]
      tauto

theorem nodup_mapKeys_mapSet (k : κ) (v : ν) (l : List (κ × ν)) (h : (mapKeys l).Nodup) :
    (mapKeys (mapSet k v l)).Nodup := by
  induction l with
  | nil => simp [mapSet, mapKeys]
  | cons e rest ih =>
    obtain ⟨k₁, v₁⟩ := e
    by_cases h1 : k₁ = k
    · subst h1
      simpa [mapSet, mapKeys] using h
    · simp only [mapSet, h1, if_false]
      have h' : k₁ ∉ mapKeys rest ∧ (mapKeys rest).Nodup := by
        simpa [mapKeys] using h
      have hmem := mem_mapKeys_mapSet k k₁ v rest
      have : (mapKeys ((k₁, v₁) :: mapSet k v rest)) = k₁ :: mapKeys (mapSet k v rest) := rfl
      rw [this, List.nodup_cons]
      refine ⟨?_, ih h'.2⟩
      rw [hmem]
      rintro (h2 | h2)
      · exact h1 h2
      · exact h'.1 h2

theorem mapFind_eq_none_iff (k : κ) (l : List (κ × ν)) :
    mapFind k l = none ↔ k ∉ mapKeys l := by
  induction l with
  | nil => simp [mapFind, mapKeys]
  | cons e rest ih =>
    obtain ⟨k₁, v₁⟩ := e
    by_cases h1 : k₁ = k
    · simp [mapFind, mapKeys, h1]
    · have h2 : ¬ k = k₁ := fun h => h1 h.symm
      simp only [mapFind, h1, if_false, ih]
      simp [mapKeys, h2]

theorem mapFind_isSome_of_mem (k : κ) (l : List (κ × ν)) (h : k ∈ mapKeys l) :
    ∃ v, mapFind k l = some v := by
  cases hf : mapFind k l with
  | none => exact absurd h ((mapFind_eq_none_iff k l).mp hf)
  | some v => exact ⟨v, rfl⟩

end maps

/-! ## Lemmas on `createRequestModel` -/

theorem isIntegerToken_iff (s : String) :
    isIntegerToken s = true ↔ ∃ c, lexical_cast_int s = .ok c := by
  unfold isIntegerToken
  cases lexical_cast_int s <;> simp

theorem isIntegerToken_false_iff (s : String) :
    isIntegerToken s = false ↔ lexical_cast_int s = .error .bad_lexical_cast := by
  unfold isIntegerToken
  cases h : lexical_cast_int s with
  | error e => cases e; simp
  | ok c => simp

theorem addResponses_fields (rs : List (String × Response)) :
    ∀ (m m' : RequestModel), addResponses m rs = .ok m' →
      m'.type = m.type ∧ m'.queryParams = m.queryParams ∧ m'.repSchema = m.repSchema := by
  induction rs with
  | nil =>
    intro m m' h
    simp only [addResponses, Except.ok.injEq] at h
    subst h
    exact ⟨rfl, rfl, rfl⟩
  | cons e rest ih =>
    intro m m' h
    obtain ⟨codeStr, response⟩ := e
    simp only [addResponses] at h
    cases hc : lexical_cast_int codeStr with
    | error x => simp [hc] at h
    | ok code =>
      simp only [hc, createResponseModel] at h
      have := ih _ _ h
      simpa [RequestModel.addResponseModel] using this

theorem addResponses_total (rs : List (String × Response)) :
    ∀ (m : RequestModel), (∀ e ∈ rs, isIntegerToken e.1 = true) →
      ∃ m', addResponses m rs = .ok m' := by
  induction rs with
  | nil => intro m _; exact ⟨m, rfl⟩
  | cons e rest ih =>
    intro m h
    obtain ⟨codeStr, response⟩ := e
    obtain ⟨c, hc⟩ := (isIntegerToken_iff codeStr).mp (h _ (List.mem_cons_self _ _))
    simp only [addResponses, hc, createResponseModel]
    exact ih _ (fun e he => h e (List.mem_cons_of_mem _ he))

theorem addResponses_error (rs : List (String × Response)) :
    ∀ (m : RequestModel), (∃ e ∈ rs, isIntegerToken e.1 = false) →
      addResponses m rs = .error .bad_lexical_cast := by
  induction rs with
  | nil => intro m h; simp at h
  | cons e rest ih =>
    intro m h
    obtain ⟨codeStr, response⟩ := e
    cases hc : lexical_cast_int codeStr with
    | error x => cases x; simp [addResponses, hc]
    | ok code =>
      simp only [addResponses, hc, createResponseModel]
      apply ih
      obtain ⟨e, he, hf⟩ := h
      rcases List.mem_cons.mp he with h1 | h1
      · subst h1
        have := (isIntegerToken_false_iff codeStr).mp hf
        rw [hc] at this
        cases this
      · exact ⟨e, h1, hf⟩

theorem addResponses_keys (rs : List (String × Response)) :
    ∀ (m m' : RequestModel), addResponses m rs = .ok m' →
      ∀ c, c ∈ mapKeys m'.responseList ↔
        c ∈ mapKeys m.responseList ∨ ∃ e ∈ rs, lexical_cast_int e.1 = .ok c := by
  induction rs with
  | nil =>
    intro m m' h c
    simp only [addResponses, Except.ok.injEq] at h
    subst h
    simp
  | cons e rest ih =>
    intro m m' h c
    obtain ⟨codeStr, response⟩ := e
    simp only [addResponses] at h
    cases hc : lexical_cast_int codeStr with
    | error x => simp [hc] at h
    | ok code =>
      simp only [hc, createResponseModel] at h
      rw [ih _ _ h c]
      simp only [RequestModel.addResponseModel, mem_mapKeys_mapSet, List.mem_cons,
        exists_eq_or_imp, hc, Except.ok.injEq]
      constructor
      · rintro ((h1 | h1) | h1)
        · exact Or.inr (Or.inl h1.symm)
        · exact Or.inl h1
        · exact Or.inr (Or.inr h1)
      · rintro (h1 | h1 | h1)
        · exact Or.inl (Or.inr h1)
        · exact Or.inl (Or.inl h1.symm)
        · exact Or.inr h1

theorem addResponses_codes (rs : List (String × Response)) :
    ∀ (m m' : RequestModel), addResponses m rs = .ok m' →
      (∀ c r, mapFind c m.responseList = some r → r.code = c) →
      ∀ c r, mapFind c m'.responseList = some r → r.code = c := by
  induction rs with
  | nil =>
    intro m m' h hinv
    simp only [addResponses, Except.ok.injEq] at h
    subst h
    exact hinv
  | cons e rest ih =>
    intro m m' h hinv
    obtain ⟨codeStr, response⟩ := e
    simp only [addResponses] at h
    cases hc : lexical_cast_int codeStr with
    | error x => simp [hc] at h
    | ok code =>
      simp only [hc, createResponseModel] at h
      apply ih _ _ h
      intro c r hf
      simp only [RequestModel.addResponseModel] at hf
      by_cases hcc : c = code
      · subst hcc
        rw [mapFind_mapSet_self] at hf
        cases hf
        rfl
      · rw [mapFind_mapSet_ne _ _ _ _ hcc] at hf
        exact hinv c r hf

theorem ActionType.supported_iff (t : ActionType) :
    t.supported ↔ ¬ (t ≠ .GET ∧ t ≠ .PUT ∧ t ≠ .POST ∧ t ≠ .DELETE) := by
  unfold ActionType.supported
  cases t <;> simp

theorem createRequestModel_unsupported (a : Action) (h : ¬ a.type.supported) :
    createRequestModel a = .ok none := by
  have h' := (not_congr (ActionType.supported_iff a.type)).mp h
  rw [not_not] at h'
  simp [createRequestModel, h']

/-- The model `createRequestModel` starts the response loop with. -/
theorem createRequestModel_supported (a : Action) (h : a.type.supported) :
    createRequestModel a =
      match addResponses
        ((addQueryParameters ⟨getRequestType a.type, [], none, []⟩ a.queryParameters).setRepSchema
          (createRepSchema (a.getRequestBody "application/json"))) a.responses with
      | .error e => .error e
      | .ok requestModel => .ok (some requestModel) := by
  have h' := (ActionType.supported_iff a.type).mp h
  unfold createRequestModel
  rw [if_neg h']

theorem createRequestModel_ok_of_valid (a : Action) (h : a.type.supported) (hv : a.keysValid) :
    ∃ m, createRequestModel a = .ok (some m) := by
  rw [createRequestModel_supported a h]
  obtain ⟨m', hm'⟩ := addResponses_total a.responses
    ((addQueryParameters ⟨getRequestType a.type, [], none, []⟩ a.queryParameters).setRepSchema
          (createRepSchema (a.getRequestBody "application/json"))) hv
  exact ⟨m', by rw [hm']⟩

theorem createRequestModel_error_of_invalid (a : Action) (h : a.type.supported)
    (hv : ¬ a.keysValid) : createRequestModel a = .error .bad_lexical_cast := by
  rw [createRequestModel_supported a h]
  have : ∃ e ∈ a.responses, isIntegerToken e.1 = false := by
    unfold Action.keysValid at hv
    push_neg at hv
    obtain ⟨e, he, hne⟩ := hv
    exact ⟨e, he, by simpa using hne⟩
  rw [addResponses_error a.responses _ this]

theorem createRequestModel_some (a : Action) (m : RequestModel)
    (h : createRequestModel a = .ok (some m)) :
    a.type.supported ∧
    addResponses
        ((addQueryParameters ⟨getRequestType a.type, [], none, []⟩ a.queryParameters).setRepSchema
          (createRepSchema (a.getRequestBody "application/json"))) a.responses = .ok m := by
  by_cases hs : a.type.supported
  · refine ⟨hs, ?_⟩
    rw [createRequestModel_supported a hs] at h
    split at h
    · cases h
    · rename_i rm heq
      simp only [Except.ok.injEq, Option.some.injEq] at h
      rw [heq, h]
  · rw [createRequestModel_unsupported a hs] at h
    cases h

theorem addEnumeration_fields (name : String) (vals : List String) :
    ∀ (m : RequestModel), (addEnumeration m name vals).type = m.type ∧
      (addEnumeration m name vals).repSchema = m.repSchema ∧
      (addEnumeration m name vals).responseList = m.responseList := by
  induction vals with
  | nil => intro m; exact ⟨rfl, rfl, rfl⟩
  | cons v rest ih =>
    intro m
    simpa [addEnumeration, RequestModel.addQueryParam] using ih (m.addQueryParam name v)

theorem addQueryParameters_fields (qps : List (String × QueryParameter)) :
    ∀ (m : RequestModel), (addQueryParameters m qps).type = m.type ∧
      (addQueryParameters m qps).repSchema = m.repSchema ∧
      (addQueryParameters m qps).responseList = m.responseList := by
  induction qps with
  | nil => intro m; exact ⟨rfl, rfl, rfl⟩
  | cons e rest ih =>
    intro m
    obtain ⟨name, qp⟩ := e
    have h1 := ih (addEnumeration m name qp.enumeration)
    have h2 := addEnumeration_fields name qp.enumeration m
    simp only [addQueryParameters]
    exact ⟨h1.1.trans h2.1, h1.2.1.trans h2.2.1, h1.2.2.trans h2.2.2⟩

theorem createRequestModel_type (a : Action) (m : RequestModel)
    (h : createRequestModel a = .ok (some m)) : m.type = getRequestType a.type := by
  obtain ⟨_, h2⟩ := createRequestModel_some a m h
  have := (addResponses_fields _ _ _ h2).1
  rw [this]
  exact (addQueryParameters_fields a.queryParameters _).1

/-! ## Lemmas on the action loop of `build` -/

theorem buildActions_cons (ml : List (RequestType × RequestModel)) (k : ActionType) (a : Action)
    (rest : List (ActionType × Action)) :
    buildActions ml ((k, a) :: rest) =
      match createRequestModel a with
      | .error e => .error e
      | .ok none => buildActions ml rest
      | .ok (some requestModel) =>
        buildActions (mapSet requestModel.type requestModel ml) rest := rfl

theorem buildActions_cons_unsupported (ml : List (RequestType × RequestModel)) (k : ActionType)
    (a : Action) (rest : List (ActionType × Action)) (h : ¬ a.type.supported) :
    buildActions ml ((k, a) :: rest) = buildActions ml rest := by
  rw [buildActions_cons, createRequestModel_unsupported a h]

theorem buildActions_cons_some (ml : List (RequestType × RequestModel)) (k : ActionType)
    (a : Action) (rest : List (ActionType × Action)) (m : RequestModel)
    (h : createRequestModel a = .ok (some m)) :
    buildActions ml ((k, a) :: rest) = buildActions (mapSet m.type m ml) rest := by
  rw [buildActions_cons, h]

theorem buildActions_cons_error (ml : List (RequestType × RequestModel)) (k : ActionType)
    (a : Action) (rest : List (ActionType × Action)) (e : Exn)
    (h : createRequestModel a = .error e) :
    buildActions ml ((k, a) :: rest) = .error e := by
  rw [buildActions_cons, h]

/-- The three outcomes of `createRequestModel`. -/
theorem createRequestModel_cases (a : Action) :
    (¬ a.type.supported ∧ createRequestModel a = .ok none) ∨
    (a.type.supported ∧ ¬ a.keysValid ∧ createRequestModel a = .error .bad_lexical_cast) ∨
    (a.type.supported ∧ a.keysValid ∧ ∃ m, createRequestModel a = .ok (some m)
      ∧ m.type = getRequestType a.type) := by
  by_cases hs : a.type.supported
  · by_cases hv : a.keysValid
    · obtain ⟨m, hm⟩ := createRequestModel_ok_of_valid a hs hv
      exact Or.inr (Or.inr ⟨hs, hv, m, hm, createRequestModel_type a m hm⟩)
    · exact Or.inr (Or.inl ⟨hs, hv, createRequestModel_error_of_invalid a hs hv⟩)
  · exact Or.inl ⟨hs, createRequestModel_unsupported a hs⟩

theorem buildActions_total (acts : List (ActionType × Action)) :
    ∀ ml, (∀ a ∈ acts, a.2.type.supported → a.2.keysValid) →
      ∃ ml', buildActions ml acts = .ok ml' := by
  induction acts with
  | nil => intro ml _; exact ⟨ml, rfl⟩
  | cons e rest ih =>
    intro ml h
    obtain ⟨k, a⟩ := e
    have hrest : ∀ a ∈ rest, a.2.type.supported → a.2.keysValid :=
      fun b hb => h b (List.mem_cons_of_mem _ hb)
    rcases createRequestModel_cases a with ⟨hs, _⟩ | ⟨hs, hv, _⟩ | ⟨_, _, m, hm, _⟩
    · rw [buildActions_cons_unsupported ml k a rest hs]
      exact ih ml hrest
    · exact absurd (h (k, a) (List.mem_cons_self _ _) hs) hv
    · rw [buildActions_cons_some ml k a rest m hm]
      exact ih _ hrest

theorem buildActions_error (acts : List (ActionType × Action)) :
    ∀ ml, (∃ a ∈ acts, a.2.type.supported ∧ ¬ a.2.keysValid) →
      buildActions ml acts = .error .bad_lexical_cast := by
  induction acts with
  | nil => intro ml h; simp at h
  | cons e rest ih =>
    intro ml h
    obtain ⟨k, a⟩ := e
    have hrest : ¬ (a.type.supported ∧ ¬ a.keysValid) →
        ∃ b ∈ rest, b.2.type.supported ∧ ¬ b.2.keysValid := by
      intro hn
      obtain ⟨b, hb, hb2⟩ := h
      rcases List.mem_cons.mp hb with h1 | h1
      · subst h1; exact absurd hb2 hn
      · exact ⟨b, h1, hb2⟩
    rcases createRequestModel_cases a with ⟨hs, _⟩ | ⟨hs, hv, he⟩ | ⟨_, hv, m, hm, _⟩
    · rw [buildActions_cons_unsupported ml k a rest hs]
      exact ih ml (hrest (fun hh => hs hh.1))
    · exact buildActions_cons_error ml k a rest _ he
    · rw [buildActions_cons_some ml k a rest m hm]
      exact ih _ (hrest (fun hh => hh.2 hv))

theorem buildActions_append (xs ys : List (ActionType × Action)) :
    ∀ ml ml', buildActions ml (xs ++ ys) = .ok ml' →
      ∃ ml₁, buildActions ml xs = .ok ml₁ ∧ buildActions ml₁ ys = .ok ml' := by
  induction xs with
  | nil => intro ml ml' h; exact ⟨ml, rfl, h⟩
  | cons e rest ih =>
    intro ml ml' h
    obtain ⟨k, a⟩ := e
    rw [List.cons_append] at h
    rcases createRequestModel_cases a with ⟨hs, _⟩ | ⟨hs, hv, he⟩ | ⟨_, hv, m, hm, _⟩
    · rw [buildActions_cons_unsupported _ k a _ hs] at h ⊢
      exact ih ml ml' h
    · rw [buildActions_cons_error _ k a _ _ he] at h
      cases h
    · rw [buildActions_cons_some _ k a _ m hm] at h ⊢
      exact ih _ ml' h

theorem buildActions_keys (acts : List (ActionType × Action)) :
    ∀ ml ml', buildActions ml acts = .ok ml' →
      ∀ t, t ∈ mapKeys ml' ↔
        t ∈ mapKeys ml ∨ ∃ a ∈ acts, a.2.type.supported ∧ getRequestType a.2.type = t := by
  induction acts with
  | nil =>
    intro ml ml' h t
    simp only [buildActions, Except.ok.injEq] at h
    subst h
    simp
  | cons e rest ih =>
    intro ml ml' h t
    obtain ⟨k, a⟩ := e
    rcases createRequestModel_cases a with ⟨hs, _⟩ | ⟨hs, hv, he⟩ | ⟨hs, hv, m, hm, hty⟩
    · rw [buildActions_cons_unsupported _ k a _ hs] at h
      rw [ih ml ml' h t]
      simp only [List.mem_cons, exists_eq_or_imp]
      constructor
      · rintro (h1 | h1)
        · exact Or.inl h1
        · exact Or.inr (Or.inr h1)
      · rintro (h1 | h1 | h1)
        · exact Or.inl h1
        · exact absurd h1.1 hs
        · exact Or.inr h1
    · rw [buildActions_cons_error _ k a _ _ he] at h
      cases h
    · rw [buildActions_cons_some _ k a _ m hm] at h
      rw [ih _ ml' h t, mem_mapKeys_mapSet, hty]
      simp only [List.mem_cons, exists_eq_or_imp]
      constructor
      · rintro ((h1 | h1) | h1)
        · exact Or.inr (Or.inl ⟨hs, h1.symm⟩)
        · exact Or.inl h1
        · exact Or.inr (Or.inr h1)
      · rintro (h1 | h1 | h1)
        · exact Or.inl (Or.inr h1)
        · exact Or.inl (Or.inl h1.2.symm)
        · exact Or.inr h1

theorem wellKeyed_nil : WellKeyed [] := by
  refine ⟨?_, ?_⟩
  · intro t m h; simp [mapFind] at h
  · simp [mapKeys]

theorem wellKeyed_mapSet (ml : List (RequestType × RequestModel)) (m : RequestModel)
    (h : WellKeyed ml) : WellKeyed (mapSet m.type m ml) := by
  refine ⟨?_, nodup_mapKeys_mapSet _ _ _ h.2⟩
  intro t m' hf
  by_cases ht : t = m.type
  · subst ht
    rw [mapFind_mapSet_self] at hf
    cases hf
    rfl
  · rw [mapFind_mapSet_ne _ _ _ _ ht] at hf
    exact h.1 t m' hf

theorem buildActions_wellKeyed (acts : List (ActionType × Action)) :
    ∀ ml ml', buildActions ml acts = .ok ml' → WellKeyed ml → WellKeyed ml' := by
  induction acts with
  | nil =>
    intro ml ml' h hw
    simp only [buildActions, Except.ok.injEq] at h
    subst h
    exact hw
  | cons e rest ih =>
    intro ml ml' h hw
    obtain ⟨k, a⟩ := e
    rcases createRequestModel_cases a with ⟨hs, _⟩ | ⟨hs, hv, he⟩ | ⟨hs, hv, m, hm, hty⟩
    · rw [buildActions_cons_unsupported _ k a _ hs] at h
      exact ih ml ml' h hw
    · rw [buildActions_cons_error _ k a _ _ he] at h
      cases h
    · rw [buildActions_cons_some _ k a _ m hm] at h
      exact ih _ ml' h (wellKeyed_mapSet ml m hw)

theorem buildActions_find_other (acts : List (ActionType × Action)) (t : RequestType) :
    ∀ ml ml', buildActions ml acts = .ok ml' →
      (∀ a ∈ acts, a.2.type.supported → getRequestType a.2.type ≠ t) →
      mapFind t ml' = mapFind t ml := by
  induction acts with
  | nil =>
    intro ml ml' h _
    simp only [buildActions, Except.ok.injEq] at h
    subst h
    rfl
  | cons e rest ih =>
    intro ml ml' h hne
    obtain ⟨k, a⟩ := e
    have hrest : ∀ a ∈ rest, a.2.type.supported → getRequestType a.2.type ≠ t :=
      fun b hb => hne b (List.mem_cons_of_mem _ hb)
    rcases createRequestModel_cases a with ⟨hs, _⟩ | ⟨hs, hv, he⟩ | ⟨hs, hv, m, hm, hty⟩
    · rw [buildActions_cons_unsupported _ k a _ hs] at h
      exact ih ml ml' h hrest
    · rw [buildActions_cons_error _ k a _ _ he] at h
      cases h
    · rw [buildActions_cons_some _ k a _ m hm] at h
      rw [ih _ ml' h hrest]
      apply mapFind_mapSet_ne
      rw [hty]
      exact fun h' => hne (k, a) (List.mem_cons_self _ _) hs h'.symm

theorem buildActions_last (as₁ as₂ : List (ActionType × Action)) (k : ActionType) (a : Action)
    (m : RequestModel) (ml ml' : List (RequestType × RequestModel))
    (h : buildActions ml (as₁ ++ (k, a) :: as₂) = .ok ml')
    (hm : createRequestModel a = .ok (some m))
    (hlast : ∀ b ∈ as₂, b.2.type.supported → getRequestType b.2.type ≠ getRequestType a.type) :
    mapFind (getRequestType a.type) ml' = some m := by
  obtain ⟨ml₁, _, h2⟩ := buildActions_append as₁ _ ml ml' h
  rw [buildActions_cons_some _ k a _ m hm] at h2
  rw [buildActions_find_other as₂ _ _ ml' h2 hlast, ← createRequestModel_type a m hm]
  exact mapFind_mapSet_self _ _ _

theorem buildActions_skip (as₁ as₂ : List (ActionType × Action)) (k : ActionType) (a : Action)
    (hs : ¬ a.type.supported) :
    ∀ ml, buildActions ml (as₁ ++ (k, a) :: as₂) = buildActions ml (as₁ ++ as₂) := by
  induction as₁ with
  | nil => intro ml; exact buildActions_cons_unsupported ml k a as₂ hs
  | cons e rest ih =>
    intro ml
    obtain ⟨k', a'⟩ := e
    simp only [List.cons_append, buildActions_cons]
    cases createRequestModel a' with
    | error x => rfl
    | ok o =>
      cases o with
      | none => exact ih ml
      | some m' => exact ih _

/-! ## Lemmas on the resource loop of `build` -/

theorem buildResources_cons (uri : String) (ml : List (RequestType × RequestModel))
    (key : String) (r : RamlResource) (rest : List (String × RamlResource)) :
    buildResources uri ml ((key, r) :: rest) =
      if stringFind uri r.resourceUri = none then buildResources uri ml rest
      else
        match buildActions ml r.actions with
        | .error e => .error e
        | .ok modelList => buildResources uri modelList rest := rfl

theorem buildResources_cons_nomatch (uri : String) (ml : List (RequestType × RequestModel))
    (key : String) (r : RamlResource) (rest : List (String × RamlResource))
    (h : ¬ r.matches uri) :
    buildResources uri ml ((key, r) :: rest) = buildResources uri ml rest := by
  rw [buildResources_cons, if_pos ((stringFind_eq_none_iff uri r).mpr h)]

theorem buildResources_cons_match (uri : String) (ml : List (RequestType × RequestModel))
    (key : String) (r : RamlResource) (rest : List (String × RamlResource))
    (h : r.matches uri) :
    buildResources uri ml ((key, r) :: rest) =
      match buildActions ml r.actions with
      | .error e => .error e
      | .ok modelList => buildResources uri modelList rest := by
  have : ¬ stringFind uri r.resourceUri = none :=
    fun hn => (stringFind_eq_none_iff uri r).mp hn h
  rw [buildResources_cons, if_neg this]

theorem buildResources_cons_ok (uri : String) (ml ml₁ : List (RequestType × RequestModel))
    (key : String) (r : RamlResource) (rest : List (String × RamlResource))
    (h : r.matches uri) (h1 : buildActions ml r.actions = .ok ml₁) :
    buildResources uri ml ((key, r) :: rest) = buildResources uri ml₁ rest := by
  rw [buildResources_cons_match uri ml key r rest h, h1]

theorem buildResources_cons_error (uri : String) (ml : List (RequestType × RequestModel))
    (key : String) (r : RamlResource) (rest : List (String × RamlResource)) (e : Exn)
    (h : r.matches uri) (h1 : buildActions ml r.actions = .error e) :
    buildResources uri ml ((key, r) :: rest) = .error e := by
  rw [buildResources_cons_match uri ml key r rest h, h1]

theorem buildResources_total (uri : String) (rs : List (String × RamlResource)) :
    ∀ ml, (∀ r ∈ rs, r.2.matches uri → ∀ a ∈ r.2.actions, a.2.type.supported → a.2.keysValid) →
      ∃ ml', buildResources uri ml rs = .ok ml' := by
  induction rs with
  | nil => intro ml _; exact ⟨ml, rfl⟩
  | cons e rest ih =>
    intro ml h
    obtain ⟨key, r⟩ := e
    have hrest : ∀ r ∈ rest, r.2.matches uri →
        ∀ a ∈ r.2.actions, a.2.type.supported → a.2.keysValid :=
      fun r' hr' => h r' (List.mem_cons_of_mem _ hr')
    by_cases hm : r.matches uri
    · obtain ⟨ml₁, h1⟩ := buildActions_total r.actions ml (h (key, r) (List.mem_cons_self _ _) hm)
      rw [buildResources_cons_ok uri ml ml₁ key r rest hm h1]
      exact ih ml₁ hrest
    · rw [buildResources_cons_nomatch uri ml key r rest hm]
      exact ih ml hrest

theorem buildResources_error (uri : String) (rs : List (String × RamlResource)) :
    ∀ ml, (∃ r ∈ rs, r.2.matches uri ∧ ∃ a ∈ r.2.actions, a.2.type.supported ∧ ¬ a.2.keysValid) →
      buildResources uri ml rs = .error .bad_lexical_cast := by
  induction rs with
  | nil => intro ml h; simp at h
  | cons e rest ih =>
    intro ml h
    obtain ⟨key, r⟩ := e
    by_cases hm : r.matches uri
    · by_cases hbad : ∃ a ∈ r.actions, a.2.type.supported ∧ ¬ a.2.keysValid
      · exact buildResources_cons_error uri ml key r rest _ hm (buildActions_error r.actions ml hbad)
      · have hgood : ∀ a ∈ r.actions, a.2.type.supported → a.2.keysValid := by
          intro a ha hs
          by_contra hv
          exact hbad ⟨a, ha, hs, hv⟩
        obtain ⟨ml₁, h1⟩ := buildActions_total r.actions ml hgood
        rw [buildResources_cons_ok uri ml ml₁ key r rest hm h1]
        apply ih
        obtain ⟨r', hr', hr2⟩ := h
        rcases List.mem_cons.mp hr' with h2 | h2
        · subst h2; exact absurd hr2.2 hbad
        · exact ⟨r', h2, hr2⟩
    · rw [buildResources_cons_nomatch uri ml key r rest hm]
      apply ih
      obtain ⟨r', hr', hr2⟩ := h
      rcases List.mem_cons.mp hr' with h2 | h2
      · subst h2; exact absurd hr2.1 hm
      · exact ⟨r', h2, hr2⟩

theorem buildResources_append (uri : String) (xs ys : List (String × RamlResource)) :
    ∀ ml ml', buildResources uri ml (xs ++ ys) = .ok ml' →
      ∃ ml₁, buildResources uri ml xs = .ok ml₁ ∧ buildResources uri ml₁ ys = .ok ml' := by
  induction xs with
  | nil => intro ml ml' h; exact ⟨ml, rfl, h⟩
  | cons e rest ih =>
    intro ml ml' h
    obtain ⟨key, r⟩ := e
    rw [List.cons_append] at h
    by_cases hm : r.matches uri
    · cases h1 : buildActions ml r.actions with
      | error x =>
        rw [buildResources_cons_error uri ml key r _ x hm h1] at h
        cases h
      | ok ml₁ =>
        rw [buildResources_cons_ok uri ml ml₁ key r _ hm h1] at h ⊢
        exact ih ml₁ ml' h
    · rw [buildResources_cons_nomatch uri ml key r _ hm] at h ⊢
      exact ih ml ml' h

theorem buildResources_keys (uri : String) (rs : List (String × RamlResource)) :
    ∀ ml ml', buildResources uri ml rs = .ok ml' →
      ∀ t, t ∈ mapKeys ml' ↔
        t ∈ mapKeys ml ∨ ∃ r ∈ rs, r.2.matches uri ∧
          ∃ a ∈ r.2.actions, a.2.type.supported ∧ getRequestType a.2.type = t := by
  induction rs with
  | nil =>
    intro ml ml' h t
    simp only [buildResources, Except.ok.injEq] at h
    subst h
    simp
  | cons e rest ih =>
    intro ml ml' h t
    obtain ⟨key, r⟩ := e
    by_cases hm : r.matches uri
    · cases h1 : buildActions ml r.actions with
      | error x =>
        rw [buildResources_cons_error uri ml key r _ x hm h1] at h
        cases h
      | ok ml₁ =>
        rw [buildResources_cons_ok uri ml ml₁ key r _ hm h1] at h
        rw [ih ml₁ ml' h t, buildActions_keys r.actions ml ml₁ h1 t]
        simp only [List.mem_cons, exists_eq_or_imp]
        constructor
        · rintro ((h2 | h2) | h2)
          · exact Or.inl h2
          · exact Or.inr (Or.inl ⟨hm, h2⟩)
          · exact Or.inr (Or.inr h2)
        · rintro (h2 | h2 | h2)
          · exact Or.inl (Or.inl h2)
          · exact Or.inl (Or.inr h2.2)
          · exact Or.inr h2
    · rw [buildResources_cons_nomatch uri ml key r _ hm] at h
      rw [ih ml ml' h t]
      simp only [List.mem_cons, exists_eq_or_imp]
      constructor
      · rintro (h2 | h2)
        · exact Or.inl h2
        · exact Or.inr (Or.inr h2)
      · rintro (h2 | h2 | h2)
        · exact Or.inl h2
        · exact absurd h2.1 hm
        · exact Or.inr h2

theorem buildResources_wellKeyed (uri : String) (rs : List (String × RamlResource)) :
    ∀ ml ml', buildResources uri ml rs = .ok ml' → WellKeyed ml → WellKeyed ml' := by
  induction rs with
  | nil =>
    intro ml ml' h hw
    simp only [buildResources, Except.ok.injEq] at h
    subst h
    exact hw
  | cons e rest ih =>
    intro ml ml' h hw
    obtain ⟨key, r⟩ := e
    by_cases hm : r.matches uri
    · cases h1 : buildActions ml r.actions with
      | error x =>
        rw [buildResources_cons_error uri ml key r _ x hm h1] at h
        cases h
      | ok ml₁ =>
        rw [buildResources_cons_ok uri ml ml₁ key r _ hm h1] at h
        exact ih ml₁ ml' h (buildActions_wellKeyed r.actions ml ml₁ h1 hw)
    · rw [buildResources_cons_nomatch uri ml key r _ hm] at h
      exact ih ml ml' h hw

theorem buildResources_find_other (uri : String) (rs : List (String × RamlResource))
    (t : RequestType) :
    ∀ ml ml', buildResources uri ml rs = .ok ml' →
      (∀ r ∈ rs, r.2.matches uri →
        ∀ a ∈ r.2.actions, a.2.type.supported → getRequestType a.2.type ≠ t) →
      mapFind t ml' = mapFind t ml := by
  induction rs with
  | nil =>
    intro ml ml' h _
    simp only [buildResources, Except.ok.injEq] at h
    subst h
    rfl
  | cons e rest ih =>
    intro ml ml' h hne
    obtain ⟨key, r⟩ := e
    have hrest : ∀ r ∈ rest, r.2.matches uri →
        ∀ a ∈ r.2.actions, a.2.type.supported → getRequestType a.2.type ≠ t :=
      fun r' hr' => hne r' (List.mem_cons_of_mem _ hr')
    by_cases hm : r.matches uri
    · cases h1 : buildActions ml r.actions with
      | error x =>
        rw [buildResources_cons_error uri ml key r _ x hm h1] at h
        cases h
      | ok ml₁ =>
        rw [buildResources_cons_ok uri ml ml₁ key r _ hm h1] at h
        rw [ih ml₁ ml' h hrest]
        exact buildActions_find_other r.actions t ml ml₁ h1
          (hne (key, r) (List.mem_cons_self _ _) hm)
    · rw [buildResources_cons_nomatch uri ml key r _ hm] at h
      exact ih ml ml' h hrest

theorem buildResources_last (uri : String) (pre post : List (String × RamlResource))
    (key : String) (r : RamlResource) (as₁ as₂ : List (ActionType × Action)) (k : ActionType)
    (a : Action) (m : RequestModel) (ml ml' : List (RequestType × RequestModel))
    (h : buildResources uri ml (pre ++ (key, r) :: post) = .ok ml')
    (hmatch : r.matches uri) (hacts : r.actions = as₁ ++ (k, a) :: as₂)
    (hm : createRequestModel a = .ok (some m))
    (hlast : ∀ b ∈ as₂, b.2.type.supported → getRequestType b.2.type ≠ getRequestType a.type)
    (hpost : ∀ r' ∈ post, r'.2.matches uri →
      ∀ b ∈ r'.2.actions, b.2.type.supported → getRequestType b.2.type ≠ getRequestType a.type) :
    mapFind (getRequestType a.type) ml' = some m := by
  obtain ⟨ml₁, _, h2⟩ := buildResources_append uri pre _ ml ml' h
  cases h1 : buildActions ml₁ r.actions with
  | error x =>
    rw [buildResources_cons_error uri ml₁ key r _ x hmatch h1] at h2
    cases h2
  | ok ml₂ =>
    rw [buildResources_cons_ok uri ml₁ ml₂ key r _ hmatch h1] at h2
    rw [buildResources_find_other uri post _ ml₂ ml' h2 hpost]
    rw [hacts] at h1
    exact buildActions_last as₁ as₂ k a m ml₁ ml₂ h1 hm hlast

theorem buildResources_congr (uri : String) (pre post : List (String × RamlResource))
    (key : String) (r r' : RamlResource) (huri : r.resourceUri = r'.resourceUri)
    (hacts : ∀ ml, buildActions ml r.actions = buildActions ml r'.actions) :
    ∀ ml, buildResources uri ml (pre ++ (key, r) :: post) =
      buildResources uri ml (pre ++ (key, r') :: post) := by
  induction pre with
  | nil =>
    intro ml
    simp only [List.nil_append, buildResources_cons, huri, hacts]
  | cons e rest ih =>
    intro ml
    obtain ⟨key₀, r₀⟩ := e
    simp only [List.cons_append, buildResources_cons]
    split
    · exact ih ml
    · cases buildActions ml r₀.actions with
      | error x => rfl
      | ok ml₁ => exact ih ml₁

/-! ## Claims on `build` and `createRequestModel` -/

/-- C1, counterexample: the GET action with responses keyed `200` and
`twohundred` has a valid key next to the malformed one, yet `createRequestModel`
returns no model for it (the conversion throws), and `build` on the document
that declares it fails as well instead of returning a mapping. -/
theorem twohundred_not_skipped :
    isIntegerToken "200" = true ∧ isIntegerToken "twohundred" = false ∧
    createRequestModel twohundredAction = .error .bad_lexical_cast ∧
    build (some twohundredRaml) "/light/1" = .error .bad_lexical_cast := by
  refine ⟨by rfl, by rfl, by rfl, by rfl⟩

/-- C1, amended: for an action with a supported method, when every response
status key is an integer token `createRequestModel` returns a request model
whose status-code map holds, for every key, a response model under the key's
integer value and with that code; when some status key is not an integer token
`createRequestModel` throws `bad_lexical_cast`, and so does `build` on every
document and URI where a matched resource declares the action. -/
theorem createRequestModel_status_keys (action : Action) (h : action.type.supported) :
    (action.keysValid →
      ∃ m, createRequestModel action = .ok (some m) ∧
        ∀ e ∈ action.responses, ∃ c r, lexical_cast_int e.1 = .ok c ∧
          mapFind c m.responseList = some r ∧ r.code = c) ∧
    (¬ action.keysValid →
      createRequestModel action = .error .bad_lexical_cast ∧
      ∀ (raml : Raml) (uri : String),
        (∃ r ∈ raml.resources, r.2.matches uri ∧ ∃ a ∈ r.2.actions, a.2 = action) →
        build (some raml) uri = .error .bad_lexical_cast) := by
  constructor
  · intro hv
    obtain ⟨m, hm⟩ := createRequestModel_ok_of_valid action h hv
    refine ⟨m, hm, ?_⟩
    obtain ⟨_, h2⟩ := createRequestModel_some action m hm
    intro e he
    obtain ⟨c, hc⟩ := (isIntegerToken_iff e.1).mp (hv e he)
    have hkey : c ∈ mapKeys m.responseList :=
      (addResponses_keys _ _ _ h2 c).mpr (Or.inr ⟨e, he, hc⟩)
    obtain ⟨r, hr⟩ := mapFind_isSome_of_mem c m.responseList hkey
    refine ⟨c, r, hc, hr, ?_⟩
    refine addResponses_codes _ _ _ h2 ?_ c r hr
    intro c' r' hf
    have h0 := (addQueryParameters_fields action.queryParameters
      ⟨getRequestType action.type, [], none, []⟩).2.2
    simp only [RequestModel.setRepSchema] at hf
    rw [h0] at hf
    simp [mapFind] at hf
  · intro hv
    refine ⟨createRequestModel_error_of_invalid action h hv, ?_⟩
    rintro raml uri ⟨r, hr, hm, a, ha, rfl⟩
    exact buildResources_error uri raml.resources [] ⟨r, hr, hm, a, ha, h, hv⟩

/-- C1, witness: the light action has a supported method and valid keys, and
`twohundredAction` has a supported method and a malformed key. -/
theorem createRequestModel_status_keys_witness :
    (∃ m, createRequestModel (lightAction 0 1 []) = .ok (some m) ∧
        ∀ e ∈ (lightAction 0 1 []).responses, ∃ c r, lexical_cast_int e.1 = .ok c ∧
          mapFind c m.responseList = some r ∧ r.code = c) ∧
    createRequestModel twohundredAction = .error .bad_lexical_cast :=
  ⟨(createRequestModel_status_keys (lightAction 0 1 []) (by decide)).1 (by decide),
   ((createRequestModel_status_keys twohundredAction (by decide)).2 (by decide)).1⟩

/-- C2: for the document with one resource of declared URI `/light`, one GET
action with query parameter `power` enumerating `on`, `off`, and one response
`200` whose JSON body declares the integer property `brightness` with range
[0, 100], `build("/light/1")` returns exactly one entry, keyed GET, whose
query-parameter map is `power -> [on, off]` and whose response map has exactly
the key 200, mapped to the response model of code 200 whose body schema holds
`brightness` with the range constraint [0, 100]. -/
theorem build_light (key : String) (value multipleOf : Int)
    (requestBodies : List (String × RequestResponseBody)) :
    build (some (lightRaml key value multipleOf requestBodies)) "/light/1" =
      .ok [(.RQ_TYPE_GET,
        { type := .RQ_TYPE_GET
          queryParams := [("power", ["on", "off"])]
          repSchema := createRepSchema (getBody "application/json" requestBodies)
          responseList :=
            [(200, { code := 200
                     repSchema := some
                       { attributes := [("brightness", .int value)]
                         attributeProperties := [("brightness", .range 0 100)] } })] })] := by
  rfl

/-- C4: an action whose method is not GET, PUT, POST or DELETE gets no model
from `createRequestModel`; `build` returns the same result with the action
declared as without it, so it contributes no entry and stops nothing; `build`
returns a mapping when every status key of the document is an integer token;
and in the mapping `build` returns, every action with a supported method
declared next to it on a matched resource has its entry, a model of that
method's kind. -/
theorem unsupported_action_skipped (action : Action) (h : ¬ action.type.supported)
    (pre post : List (String × RamlResource)) (key resourceUri : String)
    (as₁ as₂ : List (ActionType × Action)) (k : ActionType) (uri : String) :
    createRequestModel action = .ok none ∧
    build (some ⟨pre ++ (key, ⟨resourceUri, as₁ ++ (k, action) :: as₂⟩) :: post⟩) uri =
      build (some ⟨pre ++ (key, ⟨resourceUri, as₁ ++ as₂⟩) :: post⟩) uri ∧
    ((Raml.mk (pre ++ (key, ⟨resourceUri, as₁ ++ (k, action) :: as₂⟩) :: post)).keysValid →
      ∃ ml, build (some ⟨pre ++ (key, ⟨resourceUri, as₁ ++ (k, action) :: as₂⟩) :: post⟩) uri
        = .ok ml) ∧
    ∀ ml, build (some ⟨pre ++ (key, ⟨resourceUri, as₁ ++ (k, action) :: as₂⟩) :: post⟩) uri
        = .ok ml →
      resourceUri.data <:+: uri.data →
      ∀ s ∈ as₁ ++ as₂, s.2.type.supported →
        ∃ m, mapFind (getRequestType s.2.type) ml = some m ∧
          m.type = getRequestType s.2.type := by
  have hskip : build (some ⟨pre ++ (key, ⟨resourceUri, as₁ ++ (k, action) :: as₂⟩) :: post⟩) uri =
      build (some ⟨pre ++ (key, ⟨resourceUri, as₁ ++ as₂⟩) :: post⟩) uri :=
    buildResources_congr uri pre post key ⟨resourceUri, as₁ ++ (k, action) :: as₂⟩
      ⟨resourceUri, as₁ ++ as₂⟩ rfl (fun ml => buildActions_skip as₁ as₂ k action h ml) []
  refine ⟨createRequestModel_unsupported action h, hskip, ?_, ?_⟩
  · intro hv
    exact buildResources_total uri _ [] (fun r hr _ a ha _ => hv r hr a ha)
  intro ml hml hmatch s hs hsup
  rw [hskip] at hml
  have hkeys := buildResources_keys uri _ [] ml hml (getRequestType s.2.type)
  have hw := buildResources_wellKeyed uri _ [] ml hml wellKeyed_nil
  have hmem : getRequestType s.2.type ∈ mapKeys ml := by
    rw [hkeys]
    right
    exact ⟨(key, ⟨resourceUri, as₁ ++ as₂⟩), by simp, hmatch, s, hs, hsup, rfl⟩
  obtain ⟨m, hm⟩ := mapFind_isSome_of_mem _ ml hmem
  exact ⟨m, hm, hw.1 _ m hm⟩

/-- C4, witness: a PATCH action declared between the GET and the PUT action of
the matched resource `/light`. -/
theorem unsupported_action_skipped_witness :
    createRequestModel patchAction = .ok none ∧
    build (some ⟨[] ++ ("light", ⟨"/light",
        [(.GET, lightAction 0 1 [])] ++ (.PATCH, patchAction) :: [(.PUT, putAction)]⟩) :: []⟩)
        "/light/1" =
      build (some ⟨[] ++ ("light", ⟨"/light",
        [(.GET, lightAction 0 1 [])] ++ [(.PUT, putAction)]⟩) :: []⟩) "/light/1" ∧
    (∃ ml, build (some ⟨[] ++ ("light", ⟨"/light",
        [(.GET, lightAction 0 1 [])] ++ (.PATCH, patchAction) :: [(.PUT, putAction)]⟩) :: []⟩)
        "/light/1" = .ok ml) ∧
    ∀ ml, build (some ⟨[] ++ ("light", ⟨"/light",
        [(.GET, lightAction 0 1 [])] ++ (.PATCH, patchAction) :: [(.PUT, putAction)]⟩) :: []⟩)
        "/light/1" = .ok ml →
      "/light".data <:+: "/light/1".data →
      ∀ s ∈ [(ActionType.GET, lightAction 0 1 [])] ++ [(.PUT, putAction)], s.2.type.supported →
        ∃ m, mapFind (getRequestType s.2.type) ml = some m ∧
          m.type = getRequestType s.2.type :=
  have h := unsupported_action_skipped patchAction (by decide) [] [] "light" "/light"
    [(.GET, lightAction 0 1 [])] [(.PUT, putAction)] .PATCH "/light/1"
  ⟨h.1, h.2.1, h.2.2.1 (by decide), h.2.2.2⟩

/-! ## Claim on the query parameters -/

theorem mapSet_mapSet {κ ν : Type} [DecidableEq κ] (k : κ) (v w : ν) (l : List (κ × ν)) :
    mapSet k w (mapSet k v l) = mapSet k w l := by
  induction l with
  | nil => simp [mapSet]
  | cons e rest ih =>
    obtain ⟨k', v'⟩ := e
    by_cases h : k' = k
    · simp [mapSet, h]
    · simp [mapSet, h, ih]

theorem mapFind_of_mem_nodup {κ ν : Type} [DecidableEq κ] (l : List (κ × ν))
    (hn : (mapKeys l).Nodup) (e : κ × ν) (he : e ∈ l) : mapFind e.1 l = some e.2 := by
  induction l with
  | nil => simp at he
  | cons x rest ih =>
    obtain ⟨k', v'⟩ := x
    have hn' : k' ∉ mapKeys rest ∧ (mapKeys rest).Nodup := by simpa [mapKeys] using hn
    rcases List.mem_cons.mp he with h1 | h1
    · subst h1
      simp [mapFind]
    · have hne : k' ≠ e.1 := by
        intro heq
        apply hn'.1
        rw [heq]
        exact List.mem_map_of_mem Prod.fst h1
      simp only [mapFind, hne, if_false]
      exact ih hn'.2 h1

theorem addEnumeration_queryParams (name : String) (vals : List String) :
    ∀ (m : RequestModel), (addEnumeration m name vals).queryParams =
      if vals = [] then m.queryParams
      else mapSet name ((mapFind name m.queryParams).getD [] ++ vals) m.queryParams := by
  induction vals with
  | nil => intro m; simp [addEnumeration]
  | cons v rest ih =>
    intro m
    simp only [addEnumeration, ih, RequestModel.addQueryParam, mapFind_mapSet_self,
      Option.getD_some, mapSet_mapSet, reduceCtorEq, if_false]
    by_cases hr : rest = []
    · simp [hr]
    · simp [hr]

theorem addEnumeration_find (name : String) (vals : List String) (m : RequestModel)
    (n : String) :
    mapFind n (addEnumeration m name vals).queryParams =
      if n = name ∧ vals ≠ [] then some ((mapFind name m.queryParams).getD [] ++ vals)
      else mapFind n m.queryParams := by
  rw [addEnumeration_queryParams]
  by_cases hv : vals = []
  · simp [hv]
  · by_cases hn : n = name
    · subst hn
      simp [hv, mapFind_mapSet_self]
    · simp [hv, hn, mapFind_mapSet_ne _ _ _ _ hn]

theorem addQueryParameters_find (qps : List (String × QueryParameter)) :
    ∀ (m : RequestModel), (mapKeys qps).Nodup → ∀ n,
      mapFind n (addQueryParameters m qps).queryParams =
        match mapFind n qps with
        | none => mapFind n m.queryParams
        | some qp =>
          if qp.enumeration = [] then mapFind n m.queryParams
          else some ((mapFind n m.queryParams).getD [] ++ qp.enumeration) := by
  induction qps with
  | nil => intro m _ n; simp [addQueryParameters, mapFind]
  | cons e rest ih =>
    intro m hn n
    obtain ⟨name, qp⟩ := e
    have hn' : name ∉ mapKeys rest ∧ (mapKeys rest).Nodup := by simpa [mapKeys] using hn
    simp only [addQueryParameters]
    rw [ih _ hn'.2 n, addEnumeration_find]
    by_cases hnn : name = n
    · subst hnn
      have : mapFind name rest = none := (mapFind_eq_none_iff name rest).mpr hn'.1
      simp only [this, mapFind, if_true, true_and]
      by_cases hq : qp.enumeration = []
      · simp [hq]
      · simp [hq]
    · have hnn' : ¬ n = name := fun h => hnn h.symm
      simp only [mapFind, hnn, hnn', if_false, false_and]

theorem createRequestModel_queryParams (a : Action) (m : RequestModel)
    (h : createRequestModel a = .ok (some m)) :
    m.queryParams =
      (addQueryParameters ⟨getRequestType a.type, [], none, []⟩ a.queryParameters).queryParams := by
  obtain ⟨_, h2⟩ := createRequestModel_some a m h
  exact (addResponses_fields _ _ _ h2).2.1

/-- C7: for an action with a supported method, whose query-parameter map holds
each parameter name once, `createRequestModel` returns a model when the status
keys are integer tokens, and the model it returns maps every declared query
parameter with a non-empty enumeration to exactly its enumerated values, in
declaration order, and holds no entry for a parameter whose enumeration is
empty nor for a name that is not declared. -/
theorem createRequestModel_query_params (action : Action) (hsup : action.type.supported)
    (hmap : (mapKeys action.queryParameters).Nodup) :
    (action.keysValid → ∃ m, createRequestModel action = .ok (some m)) ∧
    ∀ m, createRequestModel action = .ok (some m) →
      (∀ e ∈ action.queryParameters, e.2.enumeration ≠ [] →
        mapFind e.1 m.queryParams = some e.2.enumeration) ∧
      (∀ e ∈ action.queryParameters, e.2.enumeration = [] →
        mapFind e.1 m.queryParams = none) ∧
      (∀ n, n ∉ mapKeys action.queryParameters → mapFind n m.queryParams = none) := by
  refine ⟨createRequestModel_ok_of_valid action hsup, ?_⟩
  intro m hm
  have hq := createRequestModel_queryParams action m hm
  have hfind := addQueryParameters_find action.queryParameters
    ⟨getRequestType action.type, [], none, []⟩ hmap
  refine ⟨?_, ?_, ?_⟩
  · intro e he hne
    rw [hq, hfind e.1, mapFind_of_mem_nodup _ hmap e he]
    simp [hne, mapFind]
  · intro e he hemp
    rw [hq, hfind e.1, mapFind_of_mem_nodup _ hmap e he]
    simp [hemp, mapFind]
  · intro n hn
    rw [hq, hfind n, (mapFind_eq_none_iff n _).mpr hn]
    simp [mapFind]

/-- C7, witness: `levelAction` declares `any` without enumeration and `level`
enumerating `low`, `high`. -/
theorem createRequestModel_query_params_witness :
    (∃ m, createRequestModel levelAction = .ok (some m)) ∧
    ∀ m, createRequestModel levelAction = .ok (some m) →
      (∀ e ∈ levelAction.queryParameters, e.2.enumeration ≠ [] →
        mapFind e.1 m.queryParams = some e.2.enumeration) ∧
      (∀ e ∈ levelAction.queryParameters, e.2.enumeration = [] →
        mapFind e.1 m.queryParams = none) ∧
      (∀ n, n ∉ mapKeys levelAction.queryParameters → mapFind n m.queryParams = none) :=
  have h := createRequestModel_query_params levelAction (by decide) (by decide)
  ⟨h.1 (by decide), h.2⟩

/-! ## Claims on `createRepSchema` -/

theorem isReservedName_iff (n : String) : isReservedName n = true ↔ n ∈ reservedNames := by
  simp only [isReservedName, reservedNames, Bool.or_eq_true, decide_eq_true_eq, List.mem_cons,
    List.mem_singleton, List.not_mem_nil, or_false]
  constructor
  · rintro (((((h | h) | h) | h) | h) | h) <;> simp [← h]
  · rintro (h | h | h | h | h | h) <;> simp [h]

theorem addTypedAttribute_attributes (s : SimulatorResourceModel) (p : Properties)
    (n : String) (v : AttributeValue) (h : (n, v) ∈ (addTypedAttribute s p).attributes) :
    (n, v) ∈ s.attributes ∨ n = p.name := by
  unfold addTypedAttribute at h
  split_ifs at h <;>
    (try simp only [SimulatorResourceModel.add, SimulatorResourceModel.setAttributeProperty,
      List.mem_append, List.mem_singleton, Prod.mk.injEq] at h) <;> tauto

theorem addTypedAttribute_range (s : SimulatorResourceModel) (p : Properties)
    (n : String) (lo hi : Double) :
    (n, AttributeProperty.range lo hi) ∈ (addTypedAttribute s p).attributeProperties ↔
      (n, AttributeProperty.range lo hi) ∈ s.attributeProperties := by
  unfold addTypedAttribute
  split_ifs <;>
    simp [SimulatorResourceModel.add, SimulatorResourceModel.setAttributeProperty]

theorem addTypedAttribute_properties (s : SimulatorResourceModel) (p : Properties)
    (n : String) (c : AttributeProperty)
    (h : (n, c) ∈ (addTypedAttribute s p).attributeProperties) :
    (n, c) ∈ s.attributeProperties ∨ n = p.name := by
  unfold addTypedAttribute at h
  split_ifs at h <;>
    (try simp only [SimulatorResourceModel.add, SimulatorResourceModel.setAttributeProperty,
      List.mem_append, List.mem_singleton, Prod.mk.injEq] at h) <;> tauto

theorem repSchemaStep_reserved (s : SimulatorResourceModel) (p : Properties)
    (h : isReservedName p.name = true) : repSchemaStep s p = s := by
  unfold repSchemaStep
  rw [if_pos h]

theorem repSchemaStep_bounds (s : SimulatorResourceModel) (p : Properties)
    (h : isReservedName p.name = false)
    (hb : p.min ≠ (INT_MIN : Double) ∧ p.max ≠ (INT_MAX : Double)) :
    repSchemaStep s p =
      (addTypedAttribute s p).setAttributeProperty p.name (.range p.min p.max) := by
  unfold repSchemaStep
  rw [if_neg (by simp [h]), if_pos hb]

theorem repSchemaStep_nobounds (s : SimulatorResourceModel) (p : Properties)
    (h : isReservedName p.name = false)
    (hb : ¬ (p.min ≠ (INT_MIN : Double) ∧ p.max ≠ (INT_MAX : Double))) :
    repSchemaStep s p = addTypedAttribute s p := by
  unfold repSchemaStep
  rw [if_neg (by simp [h]), if_neg hb]

theorem repSchemaStep_attributes (s : SimulatorResourceModel) (p : Properties)
    (n : String) (v : AttributeValue) (h : (n, v) ∈ (repSchemaStep s p).attributes) :
    (n, v) ∈ s.attributes ∨ (n = p.name ∧ isReservedName p.name = false) := by
  cases hr : isReservedName p.name with
  | true =>
    rw [repSchemaStep_reserved s p hr] at h
    exact Or.inl h
  | false =>
    have h' : (n, v) ∈ (addTypedAttribute s p).attributes := by
      by_cases hb : p.min ≠ (INT_MIN : Double) ∧ p.max ≠ (INT_MAX : Double)
      · rw [repSchemaStep_bounds s p hr hb] at h
        exact h
      · rw [repSchemaStep_nobounds s p hr hb] at h
        exact h
    rcases addTypedAttribute_attributes s p n v h' with h1 | h1
    · exact Or.inl h1
    · exact Or.inr ⟨h1, rfl⟩

theorem repSchemaStep_properties (s : SimulatorResourceModel) (p : Properties)
    (n : String) (c : AttributeProperty) (h : (n, c) ∈ (repSchemaStep s p).attributeProperties) :
    (n, c) ∈ s.attributeProperties ∨ (n = p.name ∧ isReservedName p.name = false) := by
  cases hr : isReservedName p.name with
  | true =>
    rw [repSchemaStep_reserved s p hr] at h
    exact Or.inl h
  | false =>
    by_cases hb : p.min ≠ (INT_MIN : Double) ∧ p.max ≠ (INT_MAX : Double)
    · rw [repSchemaStep_bounds s p hr hb] at h
      simp only [SimulatorResourceModel.setAttributeProperty, List.mem_append,
        List.mem_singleton, Prod.mk.injEq] at h
      rcases h with h1 | h1
      · rcases addTypedAttribute_properties s p n c h1 with h2 | h2
        · exact Or.inl h2
        · exact Or.inr ⟨h2, rfl⟩
      · exact Or.inr ⟨h1.1, rfl⟩
    · rw [repSchemaStep_nobounds s p hr hb] at h
      rcases addTypedAttribute_properties s p n c h with h2 | h2
      · exact Or.inl h2
      · exact Or.inr ⟨h2, rfl⟩

theorem repSchemaStep_range (s : SimulatorResourceModel) (p : Properties)
    (n : String) (lo hi : Double) :
    (n, AttributeProperty.range lo hi) ∈ (repSchemaStep s p).attributeProperties ↔
      (n, AttributeProperty.range lo hi) ∈ s.attributeProperties ∨
      (isReservedName p.name = false ∧ p.min ≠ (INT_MIN : Double) ∧ p.max ≠ (INT_MAX : Double)
        ∧ n = p.name ∧ lo = p.min ∧ hi = p.max) := by
  cases hr : isReservedName p.name with
  | true =>
    rw [repSchemaStep_reserved s p hr]
    simp
  | false =>
    by_cases hb : p.min ≠ (INT_MIN : Double) ∧ p.max ≠ (INT_MAX : Double)
    · rw [repSchemaStep_bounds s p hr hb]
      simp only [SimulatorResourceModel.setAttributeProperty, List.mem_append,
        addTypedAttribute_range, List.mem_singleton, Prod.mk.injEq,
        AttributeProperty.range.injEq]
      tauto
    · rw [repSchemaStep_nobounds s p hr hb, addTypedAttribute_range]
      tauto

theorem repSchemaLoop_attributes (props : List (String × Properties)) :
    ∀ (s : SimulatorResourceModel) (n : String) (v : AttributeValue),
      (n, v) ∈ (repSchemaLoop s props).attributes →
      (n, v) ∈ s.attributes ∨ ∃ p ∈ props, n = p.2.name ∧ isReservedName p.2.name = false := by
  induction props with
  | nil => intro s n v h; exact Or.inl h
  | cons e rest ih =>
    intro s n v h
    obtain ⟨k, p⟩ := e
    rcases ih _ n v h with h1 | ⟨q, hq, hq2⟩
    · rcases repSchemaStep_attributes s p n v h1 with h2 | h2
      · exact Or.inl h2
      · exact Or.inr ⟨(k, p), List.mem_cons_self _ _, h2⟩
    · exact Or.inr ⟨q, List.mem_cons_of_mem _ hq, hq2⟩

theorem repSchemaLoop_properties (props : List (String × Properties)) :
    ∀ (s : SimulatorResourceModel) (n : String) (c : AttributeProperty),
      (n, c) ∈ (repSchemaLoop s props).attributeProperties →
      (n, c) ∈ s.attributeProperties ∨
        ∃ p ∈ props, n = p.2.name ∧ isReservedName p.2.name = false := by
  induction props with
  | nil => intro s n c h; exact Or.inl h
  | cons e rest ih =>
    intro s n c h
    obtain ⟨k, p⟩ := e
    rcases ih _ n c h with h1 | ⟨q, hq, hq2⟩
    · rcases repSchemaStep_properties s p n c h1 with h2 | h2
      · exact Or.inl h2
      · exact Or.inr ⟨(k, p), List.mem_cons_self _ _, h2⟩
    · exact Or.inr ⟨q, List.mem_cons_of_mem _ hq, hq2⟩

theorem repSchemaLoop_range (props : List (String × Properties)) :
    ∀ (s : SimulatorResourceModel) (n : String) (lo hi : Double),
      (n, AttributeProperty.range lo hi) ∈ (repSchemaLoop s props).attributeProperties ↔
        (n, AttributeProperty.range lo hi) ∈ s.attributeProperties ∨
        ∃ p ∈ props, isReservedName p.2.name = false ∧ p.2.min ≠ (INT_MIN : Double) ∧
          p.2.max ≠ (INT_MAX : Double) ∧ n = p.2.name ∧ lo = p.2.min ∧ hi = p.2.max := by
  induction props with
  | nil => intro s n lo hi; simp [repSchemaLoop]
  | cons e rest ih =>
    intro s n lo hi
    obtain ⟨k, p⟩ := e
    simp only [repSchemaLoop, ih, repSchemaStep_range, List.mem_cons, exists_eq_or_imp]
    tauto

theorem createRepSchema_some (rep : Option RequestResponseBody) (s : SimulatorResourceModel)
    (h : createRepSchema rep = some s) :
    declaredProperties rep ≠ [] ∧ s = repSchemaLoop ⟨[], []⟩ (declaredProperties rep) := by
  unfold createRepSchema at h
  unfold declaredProperties
  cases rep with
  | none => cases h
  | some body =>
    simp only at h ⊢
    cases hs : body.schema with
    | none => simp [hs] at h
    | some schema =>
      simp only [hs] at h ⊢
      cases hp : schema.properties with
      | none => simp [hp] at h
      | some properties =>
        simp only [hp] at h ⊢
        by_cases hl : properties.properties.length = 0
        · simp [hl] at h
        · simp only [hl, if_false, Option.some.injEq] at h
          exact ⟨fun hnil => hl (by simp [hnil]), h.symm⟩

/-- C5: the body schema `createRepSchema` produces for a request or response
body holds no attribute and no attached constraint under any of the reserved
names `rt`, `resourceType`, `if`, `p`, `n`, `id`, whatever the body declares. -/
theorem createRepSchema_no_reserved (rep : Option RequestResponseBody)
    (s : SimulatorResourceModel) (h : createRepSchema rep = some s)
    (n : String) (hn : n ∈ reservedNames) :
    (∀ v, (n, v) ∉ s.attributes) ∧ (∀ c, (n, c) ∉ s.attributeProperties) := by
  obtain ⟨_, hs⟩ := createRepSchema_some rep s h
  have hres := (isReservedName_iff n).mpr hn
  subst hs
  constructor
  · intro v hv
    rcases repSchemaLoop_attributes _ _ n v hv with h1 | ⟨p, _, hp, hp2⟩
    · simp at h1
    · rw [← hp, hres] at hp2
      cases hp2
  · intro c hc
    rcases repSchemaLoop_properties _ _ n c hc with h1 | ⟨p, _, hp, hp2⟩
    · simp at h1
    · rw [← hp, hres] at hp2
      cases hp2

/-- C5, witness: a body declaring `brightness` and the reserved `rt`, the latter
with an enumeration and a range. -/
theorem createRepSchema_no_reserved_witness :
    createRepSchema (some (jsonBody [("brightness", brightnessProperty 5 1), ("rt", rtProperty)]))
      = some ⟨[("brightness", .int 5)], [("brightness", .range 0 100)]⟩ ∧
    (∀ v, ("rt", v) ∉ [("brightness", AttributeValue.int 5)]) ∧
    (∀ c, ("rt", c) ∉ [("brightness", AttributeProperty.range 0 100)]) :=
  ⟨rfl, createRepSchema_no_reserved
    (some (jsonBody [("brightness", brightnessProperty 5 1), ("rt", rtProperty)]))
    ⟨[("brightness", .int 5)], [("brightness", .range 0 100)]⟩ rfl "rt" (by decide)⟩

/-- C6, counterexample: the body declaring the string property `label` (type
tag 3) with range [0, 10] yields a schema in which `label` carries the range
constraint [0, 10]: a property of kind string does receive a range. -/
theorem string_property_gets_range :
    labelProperty.valueType = 3 ∧
    createRepSchema (some (jsonBody [("label", labelProperty)])) =
      some ⟨[("label", .string "")], [("label", .range 0 10)]⟩ :=
  ⟨rfl, rfl⟩

/-- C6, amended: in the body schema `createRepSchema` produces, a range
constraint stands only under the name of a declared, non-reserved property
whose range has `min` different from `INT_MIN` and `max` different from
`INT_MAX`, and holds that `(min, max)`; every such property receives it,
whatever its type tag, the declared value-kind not being consulted. -/
theorem createRepSchema_range_by_bounds (rep : Option RequestResponseBody)
    (s : SimulatorResourceModel) (h : createRepSchema rep = some s) :
    (∀ n lo hi, (n, AttributeProperty.range lo hi) ∈ s.attributeProperties →
      ∃ p ∈ declaredProperties rep, p.2.name = n ∧ n ∉ reservedNames ∧
        p.2.min = lo ∧ p.2.max = hi ∧ lo ≠ (INT_MIN : Double) ∧ hi ≠ (INT_MAX : Double)) ∧
    (∀ p ∈ declaredProperties rep, p.2.name ∉ reservedNames →
      p.2.min ≠ (INT_MIN : Double) → p.2.max ≠ (INT_MAX : Double) →
      (p.2.name, AttributeProperty.range p.2.min p.2.max) ∈ s.attributeProperties) := by
  obtain ⟨_, hs⟩ := createRepSchema_some rep s h
  subst hs
  have hnot : ∀ n : String, isReservedName n = false ↔ n ∉ reservedNames := by
    intro n
    rw [← isReservedName_iff]
    simp
  constructor
  · intro n lo hi hmem
    rcases (repSchemaLoop_range _ _ n lo hi).mp hmem with h1 | ⟨p, hp, hr, hlo, hhi, hn, hl, hh⟩
    · simp at h1
    · subst hn hl hh
      exact ⟨p, hp, rfl, (hnot _).mp hr, rfl, rfl, hlo, hhi⟩
  · intro p hp hr hlo hhi
    exact (repSchemaLoop_range _ _ _ _ _).mpr
      (Or.inr ⟨p, hp, (hnot _).mpr hr, hlo, hhi, rfl, rfl, rfl⟩)

/-- C6, witness: the body declaring the string property `label` with range
[0, 10]. -/
theorem createRepSchema_range_by_bounds_witness :
    (∀ n lo hi, (n, AttributeProperty.range lo hi) ∈ [("label", AttributeProperty.range 0 10)] →
      ∃ p ∈ declaredProperties (some (jsonBody [("label", labelProperty)])),
        p.2.name = n ∧ n ∉ reservedNames ∧
        p.2.min = lo ∧ p.2.max = hi ∧ lo ≠ (INT_MIN : Double) ∧ hi ≠ (INT_MAX : Double)) ∧
    (∀ p ∈ declaredProperties (some (jsonBody [("label", labelProperty)])),
      p.2.name ∉ reservedNames →
      p.2.min ≠ (INT_MIN : Double) → p.2.max ≠ (INT_MAX : Double) →
      (p.2.name, AttributeProperty.range p.2.min p.2.max) ∈
        [("label", AttributeProperty.range 0 10)]) :=
  createRepSchema_range_by_bounds (some (jsonBody [("label", labelProperty)]))
    ⟨[("label", .string "")], [("label", .range 0 10)]⟩ rfl

/-! ## Claim on the overwriting of models -/

theorem getRequestType_injective (s t : ActionType) (hs : s.supported) (ht : t.supported)
    (h : getRequestType s = getRequestType t) : s = t := by
  unfold ActionType.supported at hs ht
  rcases hs with rfl | rfl | rfl | rfl <;> rcases ht with rfl | rfl | rfl | rfl <;>
    first | rfl | (simp [getRequestType] at h)

theorem buildActions_mid_ok (as₁ as₂ : List (ActionType × Action)) (k : ActionType) (a : Action)
    (ml ml' : List (RequestType × RequestModel))
    (h : buildActions ml (as₁ ++ (k, a) :: as₂) = .ok ml') (hs : a.type.supported) :
    ∃ m, createRequestModel a = .ok (some m) := by
  obtain ⟨ml₁, _, h2⟩ := buildActions_append as₁ _ ml ml' h
  rcases createRequestModel_cases a with ⟨hn, _⟩ | ⟨_, _, he⟩ | ⟨_, _, m, hm, _⟩
  · exact absurd hs hn
  · rw [buildActions_cons_error _ k a _ _ he] at h2
    cases h2
  · exact ⟨m, hm⟩

theorem buildResources_mid_ok (uri : String) (pre post : List (String × RamlResource))
    (key : String) (r : RamlResource) (ml ml' : List (RequestType × RequestModel))
    (h : buildResources uri ml (pre ++ (key, r) :: post) = .ok ml') (hmatch : r.matches uri) :
    ∃ ml₁ ml₂, buildActions ml₁ r.actions = .ok ml₂ := by
  obtain ⟨ml₁, _, h2⟩ := buildResources_append uri pre _ ml ml' h
  cases h1 : buildActions ml₁ r.actions with
  | error x =>
    rw [buildResources_cons_error uri ml₁ key r _ x hmatch h1] at h2
    cases h2
  | ok ml₂ => exact ⟨ml₁, ml₂, h1⟩

/-- C8: the model `build` stores under a supported method is the one built
from the last resource in iteration order, among those whose declared URI
occurs in `uri`, that declares an action with the method: whatever matched
resources come earlier and declare the same method, the later one overwrites
them, and the mapping holds a single entry for the method; `build` does return
a mapping when every status key of the document is an integer token. -/
theorem build_last_write_wins (pre post : List (String × RamlResource))
    (key : String) (r : RamlResource) (uri : String)
    (k : ActionType) (a : Action) (as₁ as₂ : List (ActionType × Action))
    (hmatch : r.matches uri) (hdecl : r.actions = as₁ ++ (k, a) :: as₂)
    (hsup : a.type.supported)
    (hlast : ∀ b ∈ as₂, b.2.type ≠ a.type)
    (hpost : ∀ r' ∈ post, r'.2.matches uri → ∀ b ∈ r'.2.actions, b.2.type ≠ a.type) :
    ((Raml.mk (pre ++ (key, r) :: post)).keysValid →
      ∃ ml, build (some ⟨pre ++ (key, r) :: post⟩) uri = .ok ml) ∧
    ∀ ml, build (some ⟨pre ++ (key, r) :: post⟩) uri = .ok ml →
      ∃ m, createRequestModel a = .ok (some m) ∧
        mapFind (getRequestType a.type) ml = some m ∧
        (mapKeys ml).count (getRequestType a.type) = 1 := by
  constructor
  · intro hv
    exact buildResources_total uri _ [] (fun r hr _ a ha _ => hv r hr a ha)
  · intro ml hml
    have hml' : buildResources uri [] (pre ++ (key, r) :: post) = .ok ml := hml
    obtain ⟨ml₁, ml₂, h1⟩ := buildResources_mid_ok uri pre post key r [] ml hml' hmatch
    rw [hdecl] at h1
    obtain ⟨m, hm⟩ := buildActions_mid_ok as₁ as₂ k a ml₁ ml₂ h1 hsup
    have hfind : mapFind (getRequestType a.type) ml = some m :=
      buildResources_last uri pre post key r as₁ as₂ k a m [] ml hml' hmatch hdecl hm
        (fun b hb hbs heq => hlast b hb (getRequestType_injective _ _ hbs hsup heq))
        (fun r' hr hrm b hb hbs heq =>
          hpost r' hr hrm b hb (getRequestType_injective _ _ hbs hsup heq))
    have hw := buildResources_wellKeyed uri _ [] ml hml' wellKeyed_nil
    refine ⟨m, hm, hfind, List.count_eq_one_of_mem hw.2 ?_⟩
    by_contra hnot
    rw [(mapFind_eq_none_iff _ ml).mpr hnot] at hfind
    cases hfind

/-- C8, witness: in `twoLightsRaml` the resources `/light` and `/li` both occur
in `/light/1` and both declare GET; `build` returns a mapping, and the model
stored under GET is the one of `/li`, the later resource. -/
theorem build_last_write_wins_witness :
    (∃ ml, build (some twoLightsRaml) "/light/1" = .ok ml) ∧
    ∀ ml, build (some twoLightsRaml) "/light/1" = .ok ml →
      ∃ m, createRequestModel levelAction = .ok (some m) ∧
        mapFind (getRequestType levelAction.type) ml = some m ∧
        (mapKeys ml).count (getRequestType levelAction.type) = 1 :=
  have h := build_last_write_wins [("a", ⟨"/light", [(.GET, lightAction 0 1 [])]⟩)] [] "b"
    ⟨"/li", [(.GET, levelAction)]⟩ "/light/1" .GET levelAction
    [] [] (by decide) rfl (by decide) (by simp) (by simp)
  ⟨h.1 (by decide), h.2⟩

/-! ## Claim on the payload round trip -/

theorem OCRepPayloadSetValue_values (payload : OCRepPayload) (name : String)
    (value : OCRepPayloadValue) :
    ∃ p', OCRepPayloadSetValue true payload name value = .ok p' ∧
      mapFind name p'.values = some value := by
  cases payload with
  | mk uri types interfaces values nulls next =>
    refine ⟨_, rfl, ?_⟩
    exact mapFind_mapSet_self name value values

/-- C10: on every payload, for every property name and value, a write with
`OCRepPayloadSetProp<Kind>` whose allocation succeeds, followed by a read of the
same name with `OCRepPayloadGetProp<Kind>` of the same kind, succeeds and
returns the written value, for each of the kinds Int, Double, Bool, String
(copying and owning setter) and Object (copying and owning setter). -/
theorem OCRepPayload_set_get (payload : OCRepPayload) (name : String) :
    (∀ v : Int, ∃ p', OCRepPayloadSetPropInt true payload name v = .ok p' ∧
      OCRepPayloadGetPropInt p' name = .ok v) ∧
    (∀ v : Double, ∃ p', OCRepPayloadSetPropDouble true payload name v = .ok p' ∧
      OCRepPayloadGetPropDouble p' name = .ok v) ∧
    (∀ v : Bool, ∃ p', OCRepPayloadSetPropBool true payload name v = .ok p' ∧
      OCRepPayloadGetPropBool p' name = .ok v) ∧
    (∀ v : String, ∃ p', OCRepPayloadSetPropString true payload name v = .ok p' ∧
      OCRepPayloadGetPropString p' name = .ok v) ∧
    (∀ v : String, ∃ p', OCRepPayloadSetPropStringAsOwner true payload name v = .ok p' ∧
      OCRepPayloadGetPropString p' name = .ok v) ∧
    (∀ v : OCRepPayload, ∃ p', OCRepPayloadSetPropObject true payload name v = .ok p' ∧
      OCRepPayloadGetPropObject p' name = .ok v) ∧
    (∀ v : OCRepPayload, ∃ p', OCRepPayloadSetPropObjectAsOwner true payload name v = .ok p' ∧
      OCRepPayloadGetPropObject p' name = .ok v) := by
  refine ⟨?_, ?_, ?_, ?_, ?_, ?_, ?_⟩
  · intro v
    obtain ⟨p', h1, h2⟩ := OCRepPayloadSetValue_values payload name (.int v)
    exact ⟨p', h1, by simp [OCRepPayloadGetPropInt, h2]⟩
  · intro v
    obtain ⟨p', h1, h2⟩ := OCRepPayloadSetValue_values payload name (.double v)
    exact ⟨p', h1, by simp [OCRepPayloadGetPropDouble, h2]⟩
  · intro v
    obtain ⟨p', h1, h2⟩ := OCRepPayloadSetValue_values payload name (.bool v)
    exact ⟨p', h1, by simp [OCRepPayloadGetPropBool, h2]⟩
  · intro v
    obtain ⟨p', h1, h2⟩ := OCRepPayloadSetValue_values payload name (.str v)
    exact ⟨p', h1, by simp [OCRepPayloadGetPropString, h2]⟩
  · intro v
    obtain ⟨p', h1, h2⟩ := OCRepPayloadSetValue_values payload name (.str v)
    exact ⟨p', h1, by simp [OCRepPayloadGetPropString, h2]⟩
  · intro v
    obtain ⟨p', h1, h2⟩ := OCRepPayloadSetValue_values payload name (.object v)
    exact ⟨p', h1, by simp [OCRepPayloadGetPropObject, h2]⟩
  · intro v
    obtain ⟨p', h1, h2⟩ := OCRepPayloadSetValue_values payload name (.object v)
    exact ⟨p', h1, by simp [OCRepPayloadGetPropObject, h2]⟩

/-! ## Lemmas on what `createRepSchema` records -/

theorem addTypedAttribute_eq (s : SimulatorResourceModel) (p : Properties) :
    addTypedAttribute s p =
      ⟨s.attributes ++ p.typedValue.toList.map (fun v => (p.name, v)),
       s.attributeProperties ++ p.enumeration.toList.map (fun c => (p.name, c))⟩ := by
  unfold addTypedAttribute Properties.typedValue Properties.enumeration
  split_ifs <;>
    simp [SimulatorResourceModel.add, SimulatorResourceModel.setAttributeProperty]

theorem repSchemaStep_eq (s : SimulatorResourceModel) (p : Properties)
    (h : isReservedName p.name = false) :
    repSchemaStep s p =
      ⟨s.attributes ++ p.typedValue.toList.map (fun v => (p.name, v)),
       s.attributeProperties ++ p.enumeration.toList.map (fun c => (p.name, c)) ++
         (if p.min ≠ (INT_MIN : Double) ∧ p.max ≠ (INT_MAX : Double)
          then [(p.name, AttributeProperty.range p.min p.max)] else [])⟩ := by
  by_cases hb : p.min ≠ (INT_MIN : Double) ∧ p.max ≠ (INT_MAX : Double)
  · rw [repSchemaStep_bounds s p h hb, addTypedAttribute_eq, if_pos hb]
    rfl
  · rw [repSchemaStep_nobounds s p h hb, addTypedAttribute_eq, if_neg hb]
    simp

theorem repSchemaLoop_attributes_iff (props : List (String × Properties)) :
    ∀ (s : SimulatorResourceModel) (n : String) (v : AttributeValue),
      (n, v) ∈ (repSchemaLoop s props).attributes ↔
        (n, v) ∈ s.attributes ∨
        ∃ p ∈ props, isReservedName p.2.name = false ∧ n = p.2.name ∧
          p.2.typedValue = some v := by
  induction props with
  | nil => intro s n v; simp [repSchemaLoop]
  | cons e rest ih =>
    intro s n v
    obtain ⟨k, p⟩ := e
    simp only [repSchemaLoop, ih, List.mem_cons, exists_eq_or_imp]
    cases hr : isReservedName p.name with
    | true =>
      rw [repSchemaStep_reserved s p hr]
      simp
    | false =>
      rw [repSchemaStep_eq s p hr]
      simp only [List.mem_append, List.mem_map, Option.mem_toList, Option.mem_def,
        Prod.mk.injEq, true_and]
      constructor
      · rintro ((h1 | ⟨a, ha, hn, hv⟩) | h1)
        · exact Or.inl h1
        · subst hv; exact Or.inr (Or.inl ⟨hn.symm, ha⟩)
        · exact Or.inr (Or.inr h1)
      · rintro (h1 | ⟨hn, hv⟩ | h1)
        · exact Or.inl (Or.inl h1)
        · exact Or.inl (Or.inr ⟨v, hv, hn.symm, rfl⟩)
        · exact Or.inr h1

theorem repSchemaLoop_properties_iff (props : List (String × Properties)) :
    ∀ (s : SimulatorResourceModel) (n : String) (c : AttributeProperty),
      (n, c) ∈ (repSchemaLoop s props).attributeProperties ↔
        (n, c) ∈ s.attributeProperties ∨
        ∃ p ∈ props, isReservedName p.2.name = false ∧ n = p.2.name ∧
          (p.2.enumeration = some c ∨
            (p.2.min ≠ (INT_MIN : Double) ∧ p.2.max ≠ (INT_MAX : Double) ∧
              c = .range p.2.min p.2.max)) := by
  induction props with
  | nil => intro s n c; simp [repSchemaLoop]
  | cons e rest ih =>
    intro s n c
    obtain ⟨k, p⟩ := e
    simp only [repSchemaLoop, ih, List.mem_cons, exists_eq_or_imp]
    cases hr : isReservedName p.name with
    | true =>
      rw [repSchemaStep_reserved s p hr]
      simp
    | false =>
      rw [repSchemaStep_eq s p hr]
      by_cases hb : p.min ≠ (INT_MIN : Double) ∧ p.max ≠ (INT_MAX : Double)
      · rw [if_pos hb]
        simp only [List.mem_append, List.mem_map, Option.mem_toList, Option.mem_def,
          Prod.mk.injEq, true_and, List.mem_singleton]
        constructor
        · rintro (((h1 | ⟨a, ha, hn, hv⟩) | ⟨hn, hc⟩) | h1)
          · exact Or.inl h1
          · subst hv; exact Or.inr (Or.inl ⟨hn.symm, Or.inl ha⟩)
          · exact Or.inr (Or.inl ⟨hn, Or.inr ⟨hb.1, hb.2, hc⟩⟩)
          · exact Or.inr (Or.inr h1)
        · rintro (h1 | ⟨hn, h2 | h2⟩ | h1)
          · exact Or.inl (Or.inl (Or.inl h1))
          · exact Or.inl (Or.inl (Or.inr ⟨c, h2, hn.symm, rfl⟩))
          · exact Or.inl (Or.inr ⟨hn, h2.2.2⟩)
          · exact Or.inr h1
      · rw [if_neg hb]
        simp only [List.mem_append, List.mem_map, Option.mem_toList, Option.mem_def,
          Prod.mk.injEq, true_and, List.not_mem_nil, or_false]
        constructor
        · rintro ((h1 | ⟨a, ha, hn, hv⟩) | h1)
          · exact Or.inl h1
          · subst hv; exact Or.inr (Or.inl ⟨hn.symm, Or.inl ha⟩)
          · exact Or.inr (Or.inr h1)
        · rintro (h1 | ⟨hn, h2 | h2⟩ | h1)
          · exact Or.inl (Or.inl h1)
          · exact Or.inl (Or.inr ⟨c, h2, hn.symm, rfl⟩)
          · exact absurd ⟨h2.1, h2.2.1⟩ hb
          · exact Or.inr h1

theorem typedValue_eq_some (p : Properties) (v : AttributeValue) :
    p.typedValue = some v ↔
      (p.valueType = 0 ∧ v = .int p.valueInt) ∨ (p.valueType = 1 ∧ v = .double p.valueDouble) ∨
      (p.valueType = 2 ∧ v = .bool p.valueBool) ∨
      (p.valueType = 3 ∧ v = .string p.valueString) := by
  unfold Properties.typedValue
  split_ifs with h0 h1 h2 h3
  · simp [h0, eq_comm]
  · simp [h1, eq_comm]
  · simp [h2, eq_comm]
  · simp [h3, eq_comm]
  · simp [h0, h1, h2, h3]

theorem enumeration_ne_range (p : Properties) (lo hi : Double) :
    p.enumeration ≠ some (.range lo hi) := by
  unfold Properties.enumeration
  split_ifs <;> simp

theorem length_pos_iff_ne_nil {α : Type} (l : List α) : l.length > 0 ↔ l ≠ [] := by
  cases l <;> simp

theorem enumeration_eq_some (p : Properties) (c : AttributeProperty) :
    p.enumeration = some c ↔
      (p.valueType = 0 ∧ p.allowedValuesInt ≠ [] ∧ c = .valueSetInt p.allowedValuesInt) ∨
      (p.valueType = 1 ∧ p.allowedValuesDouble ≠ [] ∧ c = .valueSetDouble p.allowedValuesDouble) ∨
      (p.valueType = 2 ∧ p.allowedValuesBool ≠ [] ∧ c = .valueSetBool p.allowedValuesBool) ∨
      (p.valueType = 3 ∧ p.allowedValuesString ≠ [] ∧
        c = .valueSetString p.allowedValuesString) := by
  unfold Properties.enumeration
  simp only [length_pos_iff_ne_nil]
  split_ifs with h0 l0 h1 l1 h2 l2 h3 l3
  · simp [h0, l0, eq_comm]
  · simp [h0, l0]
  · simp [h1, l1, eq_comm]
  · simp [h1, l1]
  · simp [h2, l2, eq_comm]
  · simp [h2, l2]
  · simp [h3, l3, eq_comm]
  · simp [h3, l3]
  · simp [h0, h1, h2, h3]

/-! ## Claims on the attributes and constraints of a body schema -/

theorem not_reserved_iff (n : String) : isReservedName n = false ↔ n ∉ reservedNames := by
  rw [← isReservedName_iff]
  simp

theorem createRepSchema_of_declared (rep : Option RequestResponseBody) :
    (declaredProperties rep ≠ [] →
      createRepSchema rep = some (repSchemaLoop ⟨[], []⟩ (declaredProperties rep))) ∧
    (declaredProperties rep = [] → createRepSchema rep = none) := by
  unfold createRepSchema declaredProperties
  cases rep with
  | none => simp
  | some body =>
    obtain ⟨schema⟩ := body
    cases schema with
    | none => simp
    | some schema =>
      obtain ⟨properties⟩ := schema
      cases properties with
      | none => simp
      | some properties =>
        simp only
        constructor
        · intro hne
          have : ¬ properties.properties.length = 0 := fun h0 => hne (List.length_eq_zero.mp h0)
          rw [if_neg this]
        · intro hnil
          rw [hnil]
          rfl

/-- C11: in the schema `createRepSchema` produces, a declared property with a
non-reserved name has the range constraint holding its `(min, max)` attached
under its name exactly when its `min` differs from `INT_MIN` and its `max`
differs from `INT_MAX`; the enumeration constraint of the property, if it has
one, is attached as well, whatever the range; and when no other declared
property bears the name, every range constraint under the name is that one. -/
theorem createRepSchema_range_iff (rep : Option RequestResponseBody)
    (s : SimulatorResourceModel) (h : createRepSchema rep = some s)
    (p : String × Properties) (hp : p ∈ declaredProperties rep)
    (hr : p.2.name ∉ reservedNames) :
    ((p.2.name, AttributeProperty.range p.2.min p.2.max) ∈ s.attributeProperties ↔
      (p.2.min ≠ (INT_MIN : Double) ∧ p.2.max ≠ (INT_MAX : Double))) ∧
    (∀ c, p.2.enumeration = some c → (p.2.name, c) ∈ s.attributeProperties) ∧
    ((∀ q ∈ declaredProperties rep, q.2.name = p.2.name → q.2 = p.2) →
      ∀ lo hi, (p.2.name, AttributeProperty.range lo hi) ∈ s.attributeProperties ↔
        (lo = p.2.min ∧ hi = p.2.max ∧
          p.2.min ≠ (INT_MIN : Double) ∧ p.2.max ≠ (INT_MAX : Double))) := by
  obtain ⟨_, hs⟩ := createRepSchema_some rep s h
  subst hs
  have hr' := (not_reserved_iff _).mpr hr
  refine ⟨?_, ?_, ?_⟩
  · rw [repSchemaLoop_properties_iff]
    constructor
    · rintro (h1 | ⟨q, _, _, _, h2 | ⟨hlo, hhi, hc⟩⟩)
      · simp at h1
      · exact absurd h2 (enumeration_ne_range _ _ _)
      · simp only [AttributeProperty.range.injEq] at hc
        rw [hc.1, hc.2]
        exact ⟨hlo, hhi⟩
    · intro hb
      exact Or.inr ⟨p, hp, hr', rfl, Or.inr ⟨hb.1, hb.2, rfl⟩⟩
  · intro c hc
    rw [repSchemaLoop_properties_iff]
    exact Or.inr ⟨p, hp, hr', rfl, Or.inl hc⟩
  · intro huniq lo hi
    rw [repSchemaLoop_properties_iff]
    constructor
    · rintro (h1 | ⟨q, hq, _, hn, h2 | ⟨hlo, hhi, hc⟩⟩)
      · simp at h1
      · exact absurd h2 (enumeration_ne_range _ _ _)
      · have hqp := huniq q hq hn.symm
        simp only [AttributeProperty.range.injEq] at hc
        rw [hqp] at hc hlo hhi
        exact ⟨hc.1, hc.2, hlo, hhi⟩
    · rintro ⟨hlo, hhi, hb1, hb2⟩
      subst hlo hhi
      exact Or.inr ⟨p, hp, hr', rfl, Or.inr ⟨hb1, hb2, rfl⟩⟩

/-- C11, witness: in `levelModeBody` the property `level` has an enumeration
and the range [1, 3], and both constraints are attached. -/
theorem createRepSchema_range_iff_witness :
    (("level", AttributeProperty.range 1 3) ∈
        [("level", AttributeProperty.valueSetInt [1, 2, 3]), ("level", .range 1 3),
         ("mode", .valueSetString ["eco", "boost"])] ↔
      (levelProperty.min ≠ (INT_MIN : Double) ∧ levelProperty.max ≠ (INT_MAX : Double))) ∧
    ("level", AttributeProperty.valueSetInt [1, 2, 3]) ∈
        [("level", AttributeProperty.valueSetInt [1, 2, 3]), ("level", .range 1 3),
         ("mode", .valueSetString ["eco", "boost"])] :=
  have h := createRepSchema_range_iff (some levelModeBody)
    ⟨[("level", .int 2), ("mode", .string "eco")],
     [("level", .valueSetInt [1, 2, 3]), ("level", .range 1 3),
      ("mode", .valueSetString ["eco", "boost"])]⟩ rfl ("level", levelProperty)
    (by simp [levelModeBody, jsonBody, declaredProperties]) (by decide)
  ⟨h.1, h.2.1 (.valueSetInt [1, 2, 3]) rfl⟩

/-- C12: in the schema `createRepSchema` produces, a declared property with a
non-reserved name and type tag 0, 1, 2 or 3 has the enumeration constraint
holding the allowed-values list of its tag's kind, in order, attached under its
name exactly when that list is not empty; and when no other declared property
bears the name, every constraint under the name other than a range is that
enumeration, of the property's kind. -/
theorem createRepSchema_enumeration_iff (rep : Option RequestResponseBody)
    (s : SimulatorResourceModel) (h : createRepSchema rep = some s)
    (p : String × Properties) (hp : p ∈ declaredProperties rep)
    (hr : p.2.name ∉ reservedNames) :
    (p.2.valueType = 0 →
      ((p.2.name, AttributeProperty.valueSetInt p.2.allowedValuesInt) ∈ s.attributeProperties ↔
        p.2.allowedValuesInt ≠ [])) ∧
    (p.2.valueType = 1 →
      ((p.2.name, AttributeProperty.valueSetDouble p.2.allowedValuesDouble)
          ∈ s.attributeProperties ↔
        p.2.allowedValuesDouble ≠ [])) ∧
    (p.2.valueType = 2 →
      ((p.2.name, AttributeProperty.valueSetBool p.2.allowedValuesBool) ∈ s.attributeProperties ↔
        p.2.allowedValuesBool ≠ [])) ∧
    (p.2.valueType = 3 →
      ((p.2.name, AttributeProperty.valueSetString p.2.allowedValuesString)
          ∈ s.attributeProperties ↔
        p.2.allowedValuesString ≠ [])) ∧
    ((∀ q ∈ declaredProperties rep, q.2.name = p.2.name → q.2 = p.2) →
      ∀ c, (p.2.name, c) ∈ s.attributeProperties → (∀ lo hi, c ≠ .range lo hi) →
        (p.2.valueType = 0 ∧ p.2.allowedValuesInt ≠ [] ∧
          c = .valueSetInt p.2.allowedValuesInt) ∨
        (p.2.valueType = 1 ∧ p.2.allowedValuesDouble ≠ [] ∧
          c = .valueSetDouble p.2.allowedValuesDouble) ∨
        (p.2.valueType = 2 ∧ p.2.allowedValuesBool ≠ [] ∧
          c = .valueSetBool p.2.allowedValuesBool) ∨
        (p.2.valueType = 3 ∧ p.2.allowedValuesString ≠ [] ∧
          c = .valueSetString p.2.allowedValuesString)) := by
  obtain ⟨_, hs⟩ := createRepSchema_some rep s h
  subst hs
  have hr' := (not_reserved_iff _).mpr hr
  have key : ∀ c, (∀ lo hi, c ≠ AttributeProperty.range lo hi) →
      ((p.2.name, c) ∈ (repSchemaLoop ⟨[], []⟩ (declaredProperties rep)).attributeProperties ↔
        ∃ q ∈ declaredProperties rep, isReservedName q.2.name = false ∧ p.2.name = q.2.name ∧
          q.2.enumeration = some c) := by
    intro c hc
    rw [repSchemaLoop_properties_iff]
    constructor
    · rintro (h1 | ⟨q, hq, hres, hn, h2 | ⟨_, _, h3⟩⟩)
      · simp at h1
      · exact ⟨q, hq, hres, hn, h2⟩
      · exact absurd h3 (hc _ _)
    · rintro ⟨q, hq, hres, hn, h2⟩
      exact Or.inr ⟨q, hq, hres, hn, Or.inl h2⟩
  refine ⟨?_, ?_, ?_, ?_, ?_⟩
  · intro ht
    rw [key _ (by intro lo hi; simp)]
    constructor
    · rintro ⟨q, _, _, _, hq⟩
      rw [enumeration_eq_some] at hq
      rcases hq with ⟨_, hne, hc⟩ | ⟨_, _, hc⟩ | ⟨_, _, hc⟩ | ⟨_, _, hc⟩
      · simp only [AttributeProperty.valueSetInt.injEq] at hc
        rw [hc]; exact hne
      · cases hc
      · cases hc
      · cases hc
    · intro hne
      exact ⟨p, hp, hr', rfl, (enumeration_eq_some _ _).mpr (Or.inl ⟨ht, hne, rfl⟩)⟩
  · intro ht
    rw [key _ (by intro lo hi; simp)]
    constructor
    · rintro ⟨q, _, _, _, hq⟩
      rw [enumeration_eq_some] at hq
      rcases hq with ⟨_, _, hc⟩ | ⟨_, hne, hc⟩ | ⟨_, _, hc⟩ | ⟨_, _, hc⟩
      · cases hc
      · simp only [AttributeProperty.valueSetDouble.injEq] at hc
        rw [hc]; exact hne
      · cases hc
      · cases hc
    · intro hne
      exact ⟨p, hp, hr', rfl, (enumeration_eq_some _ _).mpr (Or.inr (Or.inl ⟨ht, hne, rfl⟩))⟩
  · intro ht
    rw [key _ (by intro lo hi; simp)]
    constructor
    · rintro ⟨q, _, _, _, hq⟩
      rw [enumeration_eq_some] at hq
      rcases hq with ⟨_, _, hc⟩ | ⟨_, _, hc⟩ | ⟨_, hne, hc⟩ | ⟨_, _, hc⟩
      · cases hc
      · cases hc
      · simp only [AttributeProperty.valueSetBool.injEq] at hc
        rw [hc]; exact hne
      · cases hc
    · intro hne
      exact ⟨p, hp, hr', rfl,
        (enumeration_eq_some _ _).mpr (Or.inr (Or.inr (Or.inl ⟨ht, hne, rfl⟩)))⟩
  · intro ht
    rw [key _ (by intro lo hi; simp)]
    constructor
    · rintro ⟨q, _, _, _, hq⟩
      rw [enumeration_eq_some] at hq
      rcases hq with ⟨_, _, hc⟩ | ⟨_, _, hc⟩ | ⟨_, _, hc⟩ | ⟨_, hne, hc⟩
      · cases hc
      · cases hc
      · cases hc
      · simp only [AttributeProperty.valueSetString.injEq] at hc
        rw [hc]; exact hne
    · intro hne
      exact ⟨p, hp, hr', rfl,
        (enumeration_eq_some _ _).mpr (Or.inr (Or.inr (Or.inr ⟨ht, hne, rfl⟩)))⟩
  · intro huniq c hmem hc
    obtain ⟨q, hq, _, hn, henum⟩ := (key c hc).mp hmem
    rw [huniq q hq hn.symm] at henum
    exact (enumeration_eq_some _ _).mp henum

/-- C12, witness: in `levelModeBody` the integer property `level` enumerates
1, 2, 3 and the string property `mode` enumerates `eco`, `boost`. -/
theorem createRepSchema_enumeration_iff_witness :
    (("level", AttributeProperty.valueSetInt [1, 2, 3]) ∈
        [("level", AttributeProperty.valueSetInt [1, 2, 3]), ("level", .range 1 3),
         ("mode", .valueSetString ["eco", "boost"])] ↔
      levelProperty.allowedValuesInt ≠ []) ∧
    (("mode", AttributeProperty.valueSetString ["eco", "boost"]) ∈
        [("level", AttributeProperty.valueSetInt [1, 2, 3]), ("level", .range 1 3),
         ("mode", .valueSetString ["eco", "boost"])] ↔
      modeProperty.allowedValuesString ≠ []) :=
  ⟨(createRepSchema_enumeration_iff (some levelModeBody)
      ⟨[("level", .int 2), ("mode", .string "eco")],
       [("level", .valueSetInt [1, 2, 3]), ("level", .range 1 3),
        ("mode", .valueSetString ["eco", "boost"])]⟩ rfl ("level", levelProperty)
      (by simp [levelModeBody, jsonBody, declaredProperties]) (by decide)).1 rfl,
   (createRepSchema_enumeration_iff (some levelModeBody)
      ⟨[("level", .int 2), ("mode", .string "eco")],
       [("level", .valueSetInt [1, 2, 3]), ("level", .range 1 3),
        ("mode", .valueSetString ["eco", "boost"])]⟩ rfl ("mode", modeProperty)
      (by simp [levelModeBody, jsonBody, declaredProperties]) (by decide)).2.2.2.1 rfl⟩

/-- C13: a body with at least one declared property gets a schema from
`createRepSchema`, in which every declared property with a non-reserved name
and type tag 0, 1, 2 or 3 appears under its own name with its representative
value read at the kind the tag selects (0 integer, 1 double, 2 boolean,
3 string), and in which every attribute is such a property with that value; a
body with no declared properties gets no schema. -/
theorem createRepSchema_attributes (rep : Option RequestResponseBody) :
    (declaredProperties rep ≠ [] →
      ∃ s, createRepSchema rep = some s ∧
        (∀ p ∈ declaredProperties rep, p.2.name ∉ reservedNames →
          (p.2.valueType = 0 → (p.2.name, AttributeValue.int p.2.valueInt) ∈ s.attributes) ∧
          (p.2.valueType = 1 →
            (p.2.name, AttributeValue.double p.2.valueDouble) ∈ s.attributes) ∧
          (p.2.valueType = 2 → (p.2.name, AttributeValue.bool p.2.valueBool) ∈ s.attributes) ∧
          (p.2.valueType = 3 →
            (p.2.name, AttributeValue.string p.2.valueString) ∈ s.attributes)) ∧
        (∀ n v, (n, v) ∈ s.attributes →
          ∃ p ∈ declaredProperties rep, p.2.name = n ∧ n ∉ reservedNames ∧
            ((p.2.valueType = 0 ∧ v = .int p.2.valueInt) ∨
             (p.2.valueType = 1 ∧ v = .double p.2.valueDouble) ∨
             (p.2.valueType = 2 ∧ v = .bool p.2.valueBool) ∨
             (p.2.valueType = 3 ∧ v = .string p.2.valueString)))) ∧
    (declaredProperties rep = [] → createRepSchema rep = none) := by
  refine ⟨?_, (createRepSchema_of_declared rep).2⟩
  intro hne
  refine ⟨_, (createRepSchema_of_declared rep).1 hne, ?_, ?_⟩
  · intro p hp hr
    have hr' := (not_reserved_iff _).mpr hr
    have key : ∀ v, p.2.typedValue = some v →
        (p.2.name, v) ∈ (repSchemaLoop ⟨[], []⟩ (declaredProperties rep)).attributes :=
      fun v hv => (repSchemaLoop_attributes_iff _ _ _ _).mpr (Or.inr ⟨p, hp, hr', rfl, hv⟩)
    refine ⟨?_, ?_, ?_, ?_⟩
    · intro ht
      exact key _ ((typedValue_eq_some _ _).mpr (Or.inl ⟨ht, rfl⟩))
    · intro ht
      exact key _ ((typedValue_eq_some _ _).mpr (Or.inr (Or.inl ⟨ht, rfl⟩)))
    · intro ht
      exact key _ ((typedValue_eq_some _ _).mpr (Or.inr (Or.inr (Or.inl ⟨ht, rfl⟩))))
    · intro ht
      exact key _ ((typedValue_eq_some _ _).mpr (Or.inr (Or.inr (Or.inr ⟨ht, rfl⟩))))
  · intro n v hmem
    rcases (repSchemaLoop_attributes_iff _ _ _ _).mp hmem with h1 | ⟨p, hp, hres, hn, hv⟩
    · simp at h1
    · refine ⟨p, hp, hn.symm, ?_, (typedValue_eq_some _ _).mp hv⟩
      rw [hn]
      exact (not_reserved_iff _).mp hres

/-- C13, witness: `levelModeBody` declares three properties, and its schema
holds `level` and `mode` with their values and nothing for the reserved `rt`. -/
theorem createRepSchema_attributes_witness :
    ∃ s, createRepSchema (some levelModeBody) = some s ∧
      (∀ p ∈ declaredProperties (some levelModeBody), p.2.name ∉ reservedNames →
        (p.2.valueType = 0 → (p.2.name, AttributeValue.int p.2.valueInt) ∈ s.attributes) ∧
        (p.2.valueType = 1 →
          (p.2.name, AttributeValue.double p.2.valueDouble) ∈ s.attributes) ∧
        (p.2.valueType = 2 → (p.2.name, AttributeValue.bool p.2.valueBool) ∈ s.attributes) ∧
        (p.2.valueType = 3 →
          (p.2.name, AttributeValue.string p.2.valueString) ∈ s.attributes)) ∧
      (∀ n v, (n, v) ∈ s.attributes →
        ∃ p ∈ declaredProperties (some levelModeBody), p.2.name = n ∧ n ∉ reservedNames ∧
          ((p.2.valueType = 0 ∧ v = .int p.2.valueInt) ∨
           (p.2.valueType = 1 ∧ v = .double p.2.valueDouble) ∨
           (p.2.valueType = 2 ∧ v = .bool p.2.valueBool) ∨
           (p.2.valueType = 3 ∧ v = .string p.2.valueString))) :=
  (createRepSchema_attributes (some levelModeBody)).1
    (by simp [levelModeBody, jsonBody, declaredProperties])

/-! ## Claim on `NSGetQuery` -/

theorem readCString_terminated (cs : List Char) (rest : Block) (h : NUL ∉ cs) :
    readCString (cs.map some ++ some NUL :: rest) = some cs := by
  induction cs with
  | nil => simp [readCString]
  | cons c tl ih =>
    have hc : c ≠ NUL := fun heq => h (heq ▸ List.mem_cons_self _ _)
    have htl : NUL ∉ tl := fun hm => h (List.mem_cons_of_mem _ hm)
    simp [readCString, hc, ih htl]

theorem writeCString_after (pre cs : List Char) (rest : Block) (index : Nat)
    (hidx : index = pre.length) (h : cs.length + 1 ≤ rest.length) :
    ∃ rest', writeCString (pre.map some ++ rest) index cs
        = .ok ((pre ++ cs).map some ++ some NUL :: rest') ∧
      rest'.length + cs.length + 1 = rest.length := by
  subst hidx
  refine ⟨rest.drop (cs.length + 1), ?_, ?_⟩
  · unfold writeCString
    have hfit : pre.length + cs.length + 1 ≤ (pre.map some ++ rest).length := by
      simp only [List.length_append, List.length_map]
      omega
    rw [if_pos hfit]
    have htake : (pre.map some ++ rest).take pre.length = pre.map some := by
      rw [List.take_append_of_le_length (by simp)]
      exact List.take_of_length_le (by simp)
    have hdrop : (pre.map some ++ rest).drop (pre.length + cs.length + 1)
        = rest.drop (cs.length + 1) := by
      have : pre.length + cs.length + 1 = (pre.map some).length + (cs.length + 1) := by
        simp only [List.length_map]; omega
      rw [this, List.drop_append]
    rw [htake, hdrop]
    simp
  · simp only [List.length_drop]
    omega

theorem OICStrcpyAt_after (pre : List Char) (source : String) (rest : Block)
    (index destSize : Nat) (hidx : index = pre.length) (hsize : source.length < destSize)
    (h : source.length + 1 ≤ rest.length) :
    ∃ rest', OICStrcpyAt (pre.map some ++ rest) index destSize source
        = .ok ((pre ++ source.data).map some ++ some NUL :: rest') ∧
      rest'.length + source.length + 1 = rest.length := by
  unfold OICStrcpyAt OICStrcpy
  have h0 : ¬ destSize = 0 := by omega
  rw [if_neg h0]
  have htake : source.data.take (destSize - 1) = source.data :=
    List.take_of_length_le (by
      have hl : source.data.length = source.length := rfl
      omega)
  simp only [htake]
  exact writeCString_after pre source.data rest index hidx h

theorem NSGetQuery_ok (NS_DEVICE_ID_LENGTH : Nat) (uri id : String)
    (hlen : id.length < NS_DEVICE_ID_LENGTH) :
    ∃ rest, NSGetQuery NS_DEVICE_ID_LENGTH true true (some id) (some uri) =
        .ok (some ((uri.data ++ "?".data ++ NS_QUERY_CONSUMER_ID.data ++ "=".data
          ++ id.data).map some ++ some NUL :: rest)) ∧
      rest.length + uri.length + id.length + 13 =
        NS_DEVICE_ID_LENGTH + (uri.length + 1) + (NS_QUERY_CONSUMER_ID.length + 1) + 2 := by
  have hq : NS_QUERY_CONSUMER_ID.length = 10 := rfl
  have h1len : ("?" : String).length = 1 := rfl
  have h2len : ("=" : String).length = 1 := rfl
  obtain ⟨r1, hw1, hl1⟩ := OICStrcpyAt_after [] uri
    (List.replicate
      (NS_DEVICE_ID_LENGTH + (uri.length + 1) + (NS_QUERY_CONSUMER_ID.length + 1) + 2) none)
    0 (uri.length + 1) rfl (by omega) (by simp only [List.length_replicate]; omega)
  simp only [List.length_replicate, List.nil_append] at hw1 hl1
  obtain ⟨r2, hw2, hl2⟩ := OICStrcpyAt_after uri.data "?" (some NUL :: r1)
    (0 + (uri.length + 1 - 1)) 2 (by show _ = uri.length; omega) (by omega)
    (by simp only [List.length_cons]; omega)
  simp only [List.length_cons] at hl2
  obtain ⟨r3, hw3, hl3⟩ := OICStrcpyAt_after (uri.data ++ "?".data) NS_QUERY_CONSUMER_ID
    (some NUL :: r2) (0 + (uri.length + 1 - 1) + 1) (NS_QUERY_CONSUMER_ID.length + 1)
    (by
      have : (uri.data ++ "?".data).length = uri.length + 1 := by
        rw [List.length_append]; rfl
      omega)
    (by omega) (by simp only [List.length_cons]; omega)
  simp only [List.length_cons] at hl3
  obtain ⟨r4, hw4, hl4⟩ := OICStrcpyAt_after (uri.data ++ "?".data ++ NS_QUERY_CONSUMER_ID.data)
    "=" (some NUL :: r3)
    (0 + (uri.length + 1 - 1) + 1 + (NS_QUERY_CONSUMER_ID.length + 1 - 1)) 2
    (by
      have : (uri.data ++ "?".data ++ NS_QUERY_CONSUMER_ID.data).length = uri.length + 11 := by
        rw [List.length_append, List.length_append]; rfl
      omega)
    (by omega) (by simp only [List.length_cons]; omega)
  simp only [List.length_cons] at hl4
  obtain ⟨r5, hw5, hl5⟩ := OICStrcpyAt_after
    (uri.data ++ "?".data ++ NS_QUERY_CONSUMER_ID.data ++ "=".data) id (some NUL :: r4)
    (0 + (uri.length + 1 - 1) + 1 + (NS_QUERY_CONSUMER_ID.length + 1 - 1) + 1)
    NS_DEVICE_ID_LENGTH
    (by
      have : (uri.data ++ "?".data ++ NS_QUERY_CONSUMER_ID.data ++ "=".data).length
          = uri.length + 12 := by
        rw [List.length_append, List.length_append, List.length_append]; rfl
      omega)
    hlen (by simp only [List.length_cons]; omega)
  simp only [List.length_cons] at hl5
  refine ⟨r5, ?_, by omega⟩
  unfold NSGetQuery
  simp only [OICStrdup, OICMalloc, Bool.true_eq_false, if_false]
  have hw1' : OICStrcpyAt (List.replicate
      (NS_DEVICE_ID_LENGTH + (uri.length + 1) + (NS_QUERY_CONSUMER_ID.length + 1) + 2) none)
      0 (uri.length + 1) uri = .ok (uri.data.map some ++ some NUL :: r1) := hw1
  rw [hw1']
  simp only
  rw [hw2]
  simp only
  rw [hw3]
  simp only
  rw [hw4]
  simp only
  rw [hw5]

theorem NSSetConsumerId_ok (NS_DEVICE_ID_LENGTH : Nat) (old : Option String) (cId : String)
    (hpos : 0 < NS_DEVICE_ID_LENGTH) (hc : NUL ∉ cId.data) :
    NSSetConsumerId NS_DEVICE_ID_LENGTH true old (some cId) =
      .ok (some (OICStrcpy NS_DEVICE_ID_LENGTH cId)) := by
  have hlen : (cId.data.take (NS_DEVICE_ID_LENGTH - 1)).length + 1 ≤
      (List.replicate NS_DEVICE_ID_LENGTH (none : Option Char)).length := by
    simp only [List.length_take, List.length_replicate]
    omega
  obtain ⟨rest, hw, _⟩ := writeCString_after [] (cId.data.take (NS_DEVICE_ID_LENGTH - 1))
    (List.replicate NS_DEVICE_ID_LENGTH none) 0 rfl hlen
  have hw' : writeCString (List.replicate NS_DEVICE_ID_LENGTH none) 0
      (cId.data.take (NS_DEVICE_ID_LENGTH - 1)) =
      .ok ((cId.data.take (NS_DEVICE_ID_LENGTH - 1)).map some ++ some NUL :: rest) := hw
  have hnul : NUL ∉ cId.data.take (NS_DEVICE_ID_LENGTH - 1) :=
    fun hm => hc (List.mem_of_mem_take hm)
  have h0 : ¬ NS_DEVICE_ID_LENGTH = 0 := by omega
  unfold NSSetConsumerId
  simp only [OICMalloc, Bool.true_eq_false, if_false, OICStrcpyAt, h0, OICStrcpy]
  rw [hw']
  simp only [Block.cString, readCString_terminated _ _ hnul, Option.map_some']

/-- C14: for every `uri` and every stored consumer identifier `id` shorter than
`NS_DEVICE_ID_LENGTH` (both C strings, free of `NUL`), with the allocations
succeeding, `NSGetQuery(uri)` returns a block holding exactly the string
`uri ++ "?consumerid=" ++ id`; every write stays inside the block of `queryLen`
cells, the string and its terminating `NUL` taking no more than `queryLen`
cells; `NSGetQuery` returns the null pointer when no consumer identifier has
been set; and what `NSSetConsumerId` stores is the identifier cut to fewer than
`NS_DEVICE_ID_LENGTH` characters. -/
theorem NSGetQuery_spec (NS_DEVICE_ID_LENGTH : Nat) (uri id : String)
    (huri : NUL ∉ uri.data) (hid : NUL ∉ id.data) (hlen : id.length < NS_DEVICE_ID_LENGTH) :
    (∃ retQuery,
      NSGetQuery NS_DEVICE_ID_LENGTH true true (some id) (some uri) = .ok (some retQuery) ∧
      retQuery.cString = some (uri ++ "?consumerid=" ++ id) ∧
      retQuery.length =
        NS_DEVICE_ID_LENGTH + (uri.length + 1) + (NS_QUERY_CONSUMER_ID.length + 1) + 2 ∧
      (uri ++ "?consumerid=" ++ id).length + 1 ≤ retQuery.length) ∧
    (∀ strdupOk mallocOk,
      NSGetQuery NS_DEVICE_ID_LENGTH strdupOk mallocOk none (some uri) = .ok none) ∧
    (∀ (old : Option String) (cId : String), NUL ∉ cId.data →
      ∃ stored, NSSetConsumerId NS_DEVICE_ID_LENGTH true old (some cId) = .ok (some stored) ∧
        stored.length < NS_DEVICE_ID_LENGTH ∧ stored.data <+: cId.data) := by
  have hl : ∀ s : String, s.data.length = s.length := fun _ => rfl
  refine ⟨?_, ?_, ?_⟩
  · obtain ⟨rest, hok, hrest⟩ := NSGetQuery_ok NS_DEVICE_ID_LENGTH uri id hlen
    have hq : NS_QUERY_CONSUMER_ID.data.length = 10 := rfl
    have hnul : NUL ∉ uri.data ++ "?".data ++ NS_QUERY_CONSUMER_ID.data ++ "=".data ++ id.data := by
      simp only [List.mem_append, not_or]
      exact ⟨⟨⟨⟨huri, by decide⟩, by decide⟩, by decide⟩, hid⟩
    have hlist : (uri.data ++ "?".data ++ NS_QUERY_CONSUMER_ID.data ++ "=".data
        ++ id.data).length = uri.length + 12 + id.length := by
      have hu := hl uri
      have hi := hl id
      have h1 : ("?" : String).data.length = 1 := rfl
      have h2 : ("=" : String).data.length = 1 := rfl
      simp only [List.length_append, hu, hi, h1, h2, hq]
    have hq' : NS_QUERY_CONSUMER_ID.length = 10 := rfl
    have hs : ("?consumerid=" : String).length = 12 := rfl
    have hblock : (List.map some (uri.data ++ "?".data ++ NS_QUERY_CONSUMER_ID.data ++ "=".data
        ++ id.data) ++ some NUL :: rest).length = uri.length + 12 + id.length + 1 + rest.length := by
      rw [List.length_append, List.length_map, hlist, List.length_cons]
      omega
    refine ⟨_, hok, ?_, ?_, ?_⟩
    · simp only [Block.cString, readCString_terminated _ _ hnul, Option.map_some',
        Option.some.injEq]
      apply String.ext
      simp [NS_QUERY_CONSUMER_ID]
    · rw [hblock]
      omega
    · rw [hblock, String.length_append, String.length_append, hs]
      omega
  · intro strdupOk mallocOk
    rfl
  · intro old cId hc
    have hpos : 0 < NS_DEVICE_ID_LENGTH := by omega
    refine ⟨_, NSSetConsumerId_ok NS_DEVICE_ID_LENGTH old cId hpos hc, ?_, ?_⟩
    · show (cId.data.take (NS_DEVICE_ID_LENGTH - 1)).length < NS_DEVICE_ID_LENGTH
      simp only [List.length_take]
      omega
    · exact List.take_prefix _ _

/-- C14, witness: the identifier `abc` and the URI `/notification`, with
`NS_DEVICE_ID_LENGTH` 37. -/
theorem NSGetQuery_spec_witness :
    (∃ retQuery,
      NSGetQuery 37 true true (some "abc") (some "/notification") = .ok (some retQuery) ∧
      retQuery.cString = some ("/notification" ++ "?consumerid=" ++ "abc") ∧
      retQuery.length = 37 + (("/notification" : String).length + 1)
        + (NS_QUERY_CONSUMER_ID.length + 1) + 2 ∧
      (("/notification" : String) ++ "?consumerid=" ++ "abc").length + 1 ≤ retQuery.length) ∧
    (∀ strdupOk mallocOk,
      NSGetQuery 37 strdupOk mallocOk none (some "/notification") = .ok none) :=
  have h := NSGetQuery_spec 37 "/notification" "abc" (by decide) (by decide) (by decide)
  ⟨h.1, h.2.1⟩

/-! ## Claim on `CAIPGetInterfaceInformation` -/

theorem scanAlready_iff (iflist : List CAInterface_t) (ifindex family : Nat) :
    ∀ n, scanAlready iflist ifindex family n = true ↔
      ∃ j, j < n ∧ ∃ ifitem, iflist.get? j = some ifitem ∧
        ifitem.index = ifindex ∧ ifitem.family = family := by
  intro n
  induction n with
  | zero => simp [scanAlready]
  | succ i ih =>
    unfold scanAlready
    constructor
    · intro h
      cases hg : iflist.get? i with
      | none =>
        rw [hg] at h
        obtain ⟨j, hj, rest⟩ := ih.mp h
        exact ⟨j, Nat.lt_succ_of_lt hj, rest⟩
      | some ifitem =>
        rw [hg] at h
        by_cases hc : ifitem.index = ifindex ∧ ifitem.family = family
        · exact ⟨i, Nat.lt_succ_self i, ifitem, hg, hc⟩
        · simp only [hc, if_false] at h
          obtain ⟨j, hj, rest⟩ := ih.mp h
          exact ⟨j, Nat.lt_succ_of_lt hj, rest⟩
    · rintro ⟨j, hj, ifitem, hg, hc⟩
      rcases Nat.lt_succ_iff_lt_or_eq.mp hj with h1 | h1
      · have hrec := ih.mpr ⟨j, h1, ifitem, hg, hc⟩
        cases hg' : iflist.get? i with
        | none => simpa using hrec
        | some it' =>
          by_cases hc' : it'.index = ifindex ∧ it'.family = family
          · simp [hc']
          · simp only [hc', if_false]
            exact hrec
      · subst h1
        rw [hg]
        simp [hc]

theorem scanAlready_length (iflist : List CAInterface_t) (ifindex family : Nat) :
    scanAlready iflist ifindex family iflist.length = true ↔
      (ifindex, family) ∈ iflist.map CAInterface_t.key := by
  rw [scanAlready_iff]
  simp only [List.mem_map, CAInterface_t.key, Prod.mk.injEq]
  constructor
  · rintro ⟨j, _, ifitem, hg, hc⟩
    exact ⟨ifitem, List.mem_iff_get?.mpr ⟨j, hg⟩, hc⟩
  · rintro ⟨ifitem, hmem, hc⟩
    obtain ⟨j, hg⟩ := List.mem_iff_get?.mp hmem
    have hj : j < iflist.length := by
      by_contra hnot
      rw [List.get?_eq_none.mpr (Nat.le_of_not_lt hnot)] at hg
      cases hg
    exact ⟨j, hj, ifitem, hg, hc⟩

theorem mkInterface_key (env : IfEnv) (ifa : ifaddrs) (addr : sockaddr) :
    (mkInterface env ifa addr).key = (env.if_nametoindex ifa.ifa_name, addr.sa_family) := rfl

theorem reportable_of_addr (ifa : ifaddrs) (addr : sockaddr) (h : ifa.ifa_addr = some addr) :
    ifa.reportable ↔
      ifa.ifa_flags &&& IFF_LOOPBACK = 0 ∧
        (addr.sa_family = AF_INET ∨ addr.sa_family = AF_INET6) := by
  unfold ifaddrs.reportable
  rw [h]

theorem reportable_has_addr (ifa : ifaddrs) (h : ifa.reportable) :
    ∃ addr, ifa.ifa_addr = some addr := by
  unfold ifaddrs.reportable at h
  cases ha : ifa.ifa_addr with
  | none => rw [ha] at h; exact absurd h id
  | some addr => exact ⟨addr, rfl⟩

theorem keyOf_of_addr (env : IfEnv) (ifa : ifaddrs) (addr : sockaddr)
    (h : ifa.ifa_addr = some addr) :
    env.keyOf ifa = some (env.if_nametoindex ifa.ifa_name, addr.sa_family) := by
  unfold IfEnv.keyOf
  rw [h]
  rfl

theorem interfaceOf_of_addr (env : IfEnv) (ifa : ifaddrs) (addr : sockaddr)
    (h : ifa.ifa_addr = some addr) :
    env.interfaceOf ifa = some (mkInterface env ifa addr) := by
  unfold IfEnv.interfaceOf
  rw [h]
  rfl

theorem interfaceLoop_cons (env : IfEnv) (iflist : List CAInterface_t) (ifa : ifaddrs)
    (rest : List ifaddrs) :
    interfaceLoop env iflist (ifa :: rest) =
      match ifa.ifa_addr with
      | none => .error .nullDereference
      | some addr =>
        if ifa.ifa_flags &&& IFF_LOOPBACK ≠ 0 ∨
            (AF_INET ≠ addr.sa_family ∧ AF_INET6 ≠ addr.sa_family) then
          interfaceLoop env iflist rest
        else
          if scanAlready iflist (env.if_nametoindex ifa.ifa_name) addr.sa_family iflist.length
          then interfaceLoop env iflist rest
          else if env.OICCalloc_ok iflist.length = false then .ok none
          else if env.u_arraylist_add_ok iflist.length = false then .ok none
          else interfaceLoop env (iflist ++ [mkInterface env ifa addr]) rest := rfl

theorem interfaceLoop_cons_null (env : IfEnv) (iflist : List CAInterface_t) (ifa : ifaddrs)
    (rest : List ifaddrs) (h : ifa.ifa_addr = none) :
    interfaceLoop env iflist (ifa :: rest) = .error .nullDereference := by
  rw [interfaceLoop_cons, h]

theorem skip_condition (ifa : ifaddrs) (addr : sockaddr) (ha : ifa.ifa_addr = some addr) :
    (ifa.ifa_flags &&& IFF_LOOPBACK ≠ 0 ∨
      (AF_INET ≠ addr.sa_family ∧ AF_INET6 ≠ addr.sa_family)) ↔ ¬ ifa.reportable := by
  rw [reportable_of_addr ifa addr ha]
  constructor
  · rintro (h1 | h1) ⟨h2, h3⟩
    · exact h1 h2
    · rcases h3 with h3 | h3
      · exact h1.1 h3.symm
      · exact h1.2 h3.symm
  · intro h
    by_cases h1 : ifa.ifa_flags &&& IFF_LOOPBACK = 0
    · right
      constructor
      · intro h2; exact h ⟨h1, Or.inl h2.symm⟩
      · intro h2; exact h ⟨h1, Or.inr h2.symm⟩
    · exact Or.inl h1

theorem interfaceLoop_cons_skip (env : IfEnv) (iflist : List CAInterface_t) (ifa : ifaddrs)
    (addr : sockaddr) (rest : List ifaddrs) (ha : ifa.ifa_addr = some addr)
    (h : ¬ ifa.reportable) :
    interfaceLoop env iflist (ifa :: rest) = interfaceLoop env iflist rest := by
  rw [interfaceLoop_cons, ha]
  simp only
  rw [if_pos ((skip_condition ifa addr ha).mpr h)]

theorem interfaceLoop_cons_already (env : IfEnv) (iflist : List CAInterface_t) (ifa : ifaddrs)
    (addr : sockaddr) (rest : List ifaddrs) (ha : ifa.ifa_addr = some addr)
    (h : ifa.reportable)
    (hk : (env.if_nametoindex ifa.ifa_name, addr.sa_family) ∈ iflist.map CAInterface_t.key) :
    interfaceLoop env iflist (ifa :: rest) = interfaceLoop env iflist rest := by
  have hc := fun hh => (skip_condition ifa addr ha).mp hh h
  have hs := (scanAlready_length iflist (env.if_nametoindex ifa.ifa_name) addr.sa_family).mpr hk
  rw [interfaceLoop_cons, ha]
  simp only
  rw [if_neg hc, if_pos hs]

theorem interfaceLoop_cons_new (env : IfEnv) (iflist : List CAInterface_t) (ifa : ifaddrs)
    (addr : sockaddr) (rest : List ifaddrs) (ha : ifa.ifa_addr = some addr)
    (h : ifa.reportable)
    (hk : (env.if_nametoindex ifa.ifa_name, addr.sa_family) ∉ iflist.map CAInterface_t.key)
    (hcalloc : ∀ n, env.OICCalloc_ok n = true) (hadd : ∀ n, env.u_arraylist_add_ok n = true) :
    interfaceLoop env iflist (ifa :: rest) =
      interfaceLoop env (iflist ++ [mkInterface env ifa addr]) rest := by
  have hc := fun hh => (skip_condition ifa addr ha).mp hh h
  have hs : ¬ scanAlready iflist (env.if_nametoindex ifa.ifa_name) addr.sa_family iflist.length
      = true :=
    fun hh => hk ((scanAlready_length iflist _ _).mp hh)
  rw [interfaceLoop_cons, ha]
  simp only
  rw [if_neg hc, if_neg hs, if_neg (by simp [hcalloc]), if_neg (by simp [hadd])]

/-- With the allocations succeeding, the loop crashes on every list that holds a
node without an address. -/
theorem interfaceLoop_null (env : IfEnv)
    (hcalloc : ∀ n, env.OICCalloc_ok n = true) (hadd : ∀ n, env.u_arraylist_add_ok n = true)
    (ifas : List ifaddrs) :
    ∀ acc : List CAInterface_t, (∃ ifa ∈ ifas, ifa.ifa_addr = none) →
      interfaceLoop env acc ifas = .error .nullDereference := by
  induction ifas with
  | nil => intro acc h; simp at h
  | cons x rest ih =>
    intro acc h
    cases hx : x.ifa_addr with
    | none => exact interfaceLoop_cons_null env acc x rest hx
    | some addr =>
      have hrest : ∃ ifa ∈ rest, ifa.ifa_addr = none := by
        obtain ⟨ifa, hifa, hnone⟩ := h
        rcases List.mem_cons.mp hifa with h1 | h1
        · subst h1; rw [hx] at hnone; cases hnone
        · exact ⟨ifa, h1, hnone⟩
      by_cases hrep : x.reportable
      · by_cases hk : (env.if_nametoindex x.ifa_name, addr.sa_family) ∈ acc.map CAInterface_t.key
        · rw [interfaceLoop_cons_already env acc x addr rest hx hrep hk]
          exact ih acc hrest
        · rw [interfaceLoop_cons_new env acc x addr rest hx hrep hk hcalloc hadd]
          exact ih _ hrest
      · rw [interfaceLoop_cons_skip env acc x addr rest hx hrep]
        exact ih acc hrest

theorem interfaceLoop_spec (env : IfEnv)
    (hcalloc : ∀ n, env.OICCalloc_ok n = true) (hadd : ∀ n, env.u_arraylist_add_ok n = true)
    (ifas : List ifaddrs) (haddr : ∀ ifa ∈ ifas, ifa.ifa_addr ≠ none) :
    ∀ acc : List CAInterface_t, ∃ out, interfaceLoop env acc ifas = .ok (some out) ∧
      acc <+: out ∧
      (∀ it ∈ out, it ∈ acc ∨ ∃ ifa ∈ ifas, ifa.reportable ∧ env.interfaceOf ifa = some it) ∧
      ((acc.map CAInterface_t.key).Nodup → (out.map CAInterface_t.key).Nodup) ∧
      (∀ ifa ∈ ifas, ifa.reportable →
        (∀ it ∈ acc, some it.key ≠ env.keyOf ifa) →
        ∃ first it, ifas.find? (fun e => decide (e.reportable ∧ env.keyOf e = env.keyOf ifa))
            = some first ∧ env.interfaceOf first = some it ∧ it ∈ out) := by
  induction ifas with
  | nil =>
    intro acc
    refine ⟨acc, rfl, List.prefix_refl _, fun it h => Or.inl h, fun h => h, ?_⟩
    intro ifa h; simp at h
  | cons x rest ih =>
    intro acc
    have haddr' : ∀ ifa ∈ rest, ifa.ifa_addr ≠ none :=
      fun ifa h => haddr ifa (List.mem_cons_of_mem _ h)
    cases hxa : x.ifa_addr with
    | none => exact absurd hxa (haddr x (List.mem_cons_self _ _))
    | some addr =>
      have hxk := keyOf_of_addr env x addr hxa
      have hxi := interfaceOf_of_addr env x addr hxa
      by_cases hx : x.reportable
      · by_cases hk : (env.if_nametoindex x.ifa_name, addr.sa_family) ∈ acc.map CAInterface_t.key
        · obtain ⟨out, hout, hpre, hsrc, hnd, hfirst⟩ := ih haddr' acc
          rw [interfaceLoop_cons_already env acc x addr rest hxa hx hk]
          refine ⟨out, hout, hpre, ?_, hnd, ?_⟩
          · intro it hit
            rcases hsrc it hit with h1 | ⟨ifa, hifa, h2⟩
            · exact Or.inl h1
            · exact Or.inr ⟨ifa, List.mem_cons_of_mem _ hifa, h2⟩
          · intro ifa hifa hrep hnew
            have hne : env.keyOf x ≠ env.keyOf ifa := by
              intro heq
              obtain ⟨it, hit, hitk⟩ := List.mem_map.mp hk
              apply hnew it hit
              rw [hitk, ← heq, hxk]
            have hmem : ifa ∈ rest := by
              rcases List.mem_cons.mp hifa with h1 | h1
              · subst h1; exact absurd rfl hne
              · exact h1
            obtain ⟨first, it, hf, hi, hin⟩ := hfirst ifa hmem hrep hnew
            refine ⟨first, it, ?_, hi, hin⟩
            rw [List.find?_cons_of_neg _ (by simp [hne])]
            exact hf
        · obtain ⟨out, hout, hpre, hsrc, hnd, hfirst⟩ :=
            ih haddr' (acc ++ [mkInterface env x addr])
          rw [interfaceLoop_cons_new env acc x addr rest hxa hx hk hcalloc hadd]
          have hxin : mkInterface env x addr ∈ out :=
            hpre.subset (List.mem_append_right _ (List.mem_singleton_self _))
          refine ⟨out, hout, (List.prefix_append acc _).trans hpre, ?_, ?_, ?_⟩
          · intro it hit
            rcases hsrc it hit with h1 | ⟨ifa, hifa, h2⟩
            · rcases List.mem_append.mp h1 with h3 | h3
              · exact Or.inl h3
              · rw [List.mem_singleton.mp h3]
                exact Or.inr ⟨x, List.mem_cons_self _ _, hx, hxi⟩
            · exact Or.inr ⟨ifa, List.mem_cons_of_mem _ hifa, h2⟩
          · intro hacc
            apply hnd
            rw [List.map_append, List.nodup_append]
            refine ⟨hacc, by simp, ?_⟩
            intro a ha hb
            simp only [List.map_cons, List.map_nil, List.mem_singleton] at hb
            rw [hb, mkInterface_key] at ha
            exact hk ha
          · intro ifa hifa hrep hnew
            by_cases heq : env.keyOf x = env.keyOf ifa
            · refine ⟨x, mkInterface env x addr, ?_, hxi, hxin⟩
              rw [List.find?_cons_of_pos _ (by simp [hx, heq])]
            · have hmem : ifa ∈ rest := by
                rcases List.mem_cons.mp hifa with h1 | h1
                · subst h1; exact absurd rfl heq
                · exact h1
              have hnew' : ∀ it ∈ acc ++ [mkInterface env x addr],
                  some it.key ≠ env.keyOf ifa := by
                intro it hit
                rcases List.mem_append.mp hit with h1 | h1
                · exact hnew it h1
                · rw [List.mem_singleton.mp h1, mkInterface_key, ← hxk]
                  exact heq
              obtain ⟨first, it, hf, hi, hin⟩ := hfirst ifa hmem hrep hnew'
              refine ⟨first, it, ?_, hi, hin⟩
              rw [List.find?_cons_of_neg _ (by simp [heq])]
              exact hf
      · obtain ⟨out, hout, hpre, hsrc, hnd, hfirst⟩ := ih haddr' acc
        rw [interfaceLoop_cons_skip env acc x addr rest hxa hx]
        refine ⟨out, hout, hpre, ?_, hnd, ?_⟩
        · intro it hit
          rcases hsrc it hit with h1 | ⟨ifa, hifa, h2⟩
          · exact Or.inl h1
          · exact Or.inr ⟨ifa, List.mem_cons_of_mem _ hifa, h2⟩
        · intro ifa hifa hrep hnew
          have hmem : ifa ∈ rest := by
            rcases List.mem_cons.mp hifa with h1 | h1
            · subst h1; exact absurd hrep hx
            · exact h1
          obtain ⟨first, it, hf, hi, hin⟩ := hfirst ifa hmem hrep hnew
          refine ⟨first, it, ?_, hi, hin⟩
          rw [List.find?_cons_of_neg _ (by simp [hx])]
          exact hf

/-- On an address list whose nodes all have an address, with every allocation
succeeding, `CAIPGetInterfaceInformation` returns a list in which no entry is a
loopback entry or of a family other than IPv4 and IPv6, no two entries have the
same (interface index, family) pair, every entry is built from a non-loopback
IPv4/IPv6 node of the list, and for every such node the list holds the entry
built from the first node, in input order, with that node's pair. -/
theorem CAIPGetInterfaceInformation_with_addresses (env : IfEnv) (desiredIndex : Int)
    (ifp : List ifaddrs) (hcreate : env.u_arraylist_create_ok = true)
    (hget : env.getifaddrs = some ifp)
    (hcalloc : ∀ n, env.OICCalloc_ok n = true) (hadd : ∀ n, env.u_arraylist_add_ok n = true)
    (haddr : ∀ ifa ∈ ifp, ifa.ifa_addr ≠ none) :
    ∃ iflist, CAIPGetInterfaceInformation env desiredIndex = .ok (some iflist) ∧
      (∀ ifitem ∈ iflist, ifitem.flags &&& IFF_LOOPBACK = 0 ∧
        (ifitem.family = AF_INET ∨ ifitem.family = AF_INET6)) ∧
      (iflist.map CAInterface_t.key).Nodup ∧
      (∀ ifitem ∈ iflist, ∃ ifa ∈ ifp, ifa.reportable ∧ env.interfaceOf ifa = some ifitem) ∧
      (∀ ifa ∈ ifp, ifa.reportable →
        ∃ first ifitem,
          ifp.find? (fun e => decide (e.reportable ∧ env.keyOf e = env.keyOf ifa)) = some first ∧
          env.interfaceOf first = some ifitem ∧ ifitem ∈ iflist) := by
  obtain ⟨out, hout, _, hsrc, hnd, hfirst⟩ := interfaceLoop_spec env hcalloc hadd ifp haddr []
  have hsrc' : ∀ ifitem ∈ out, ∃ ifa ∈ ifp, ifa.reportable ∧
      env.interfaceOf ifa = some ifitem := by
    intro it hit
    rcases hsrc it hit with h1 | h1
    · simp at h1
    · exact h1
  refine ⟨out, ?_, ?_, hnd (by simp), hsrc', ?_⟩
  · unfold CAIPGetInterfaceInformation
    simp only [hcreate, Bool.true_eq_false, if_false, hget]
    exact hout
  · intro it hit
    obtain ⟨ifa, _, hrep, hi⟩ := hsrc' it hit
    obtain ⟨addr, ha⟩ := reportable_has_addr ifa hrep
    rw [interfaceOf_of_addr env ifa addr ha] at hi
    cases hi
    exact (reportable_of_addr ifa addr ha).mp hrep
  · intro ifa hifa hrep
    exact hfirst ifa hifa hrep (by simp)

/-- The theorem `CAIPGetInterfaceInformation_with_addresses` on `sampleEnv`: the
loopback node, the packet-family node and the second IPv4 node of `eth0` are
left out. -/
theorem CAIPGetInterfaceInformation_with_addresses_witness :
    CAIPGetInterfaceInformation sampleEnv 0 = .ok (some
      [⟨"eth0", 4, 2, 167772161, 4163⟩, ⟨"eth0", 4, 10, 0, 4163⟩,
       ⟨"wlan0", 5, 2, 3232235777, 4163⟩]) ∧
    ∃ iflist, CAIPGetInterfaceInformation sampleEnv 0 = .ok (some iflist) ∧
      (∀ ifitem ∈ iflist, ifitem.flags &&& IFF_LOOPBACK = 0 ∧
        (ifitem.family = AF_INET ∨ ifitem.family = AF_INET6)) ∧
      (iflist.map CAInterface_t.key).Nodup ∧
      (∀ ifitem ∈ iflist, ∃ ifa ∈ sampleIfaddrs, ifa.reportable ∧
        sampleEnv.interfaceOf ifa = some ifitem) ∧
      (∀ ifa ∈ sampleIfaddrs, ifa.reportable →
        ∃ first ifitem,
          sampleIfaddrs.find?
            (fun e => decide (e.reportable ∧ sampleEnv.keyOf e = sampleEnv.keyOf ifa))
            = some first ∧
          sampleEnv.interfaceOf first = some ifitem ∧ ifitem ∈ iflist) :=
  ⟨rfl, CAIPGetInterfaceInformation_with_addresses sampleEnv 0 sampleIfaddrs rfl rfl
    (fun _ => rfl) (fun _ => rfl) (by decide)⟩

/-- C9, failing input: on `tunnelEnv`, where `getifaddrs` yields the nodes of
`sampleIfaddrs` followed by the node of `tun0`, whose `ifa_addr` is null, and
every allocation succeeds, `CAIPGetInterfaceInformation` returns no list: it
reads the family through the null pointer and crashes.  On `sampleEnv`, the same
list without that node, it returns the three entries the claim describes. -/
theorem CAIPGetInterfaceInformation_null_address :
    (⟨"tun0", 4305, none⟩ : ifaddrs) ∈ tunnelIfaddrs ∧
    CAIPGetInterfaceInformation tunnelEnv 0 = .error .nullDereference ∧
    CAIPGetInterfaceInformation sampleEnv 0 = .ok (some
      [⟨"eth0", 4, 2, 167772161, 4163⟩, ⟨"eth0", 4, 10, 0, 4163⟩,
       ⟨"wlan0", 5, 2, 3232235777, 4163⟩]) :=
  ⟨by decide, rfl, rfl⟩

/-- With every allocation succeeding, `CAIPGetInterfaceInformation` crashes on
every address list that holds a node without an address. -/
theorem CAIPGetInterfaceInformation_crashes (env : IfEnv) (desiredIndex : Int)
    (ifp : List ifaddrs) (hcreate : env.u_arraylist_create_ok = true)
    (hget : env.getifaddrs = some ifp)
    (hcalloc : ∀ n, env.OICCalloc_ok n = true) (hadd : ∀ n, env.u_arraylist_add_ok n = true)
    (hnull : ∃ ifa ∈ ifp, ifa.ifa_addr = none) :
    CAIPGetInterfaceInformation env desiredIndex = .error .nullDereference := by
  unfold CAIPGetInterfaceInformation
  simp only [hcreate, Bool.true_eq_false, if_false, hget]
  exact interfaceLoop_null env hcalloc hadd ifp [] hnull

end Iotivity
